import Mathlib

/-!
# AVR Snake: game-state controller of `Snake.cpp`

A shallow embedding of the game logic of `src/Snake.cpp` (board, snake,
session globals, `place_food`, `placeObstacles`, `init_gameboard`,
`gameOver`, `update`) together with theorems about it.

Conventions of the embedding:

* the process-wide globals of the source are the fields of `State`;
* `rand()` is the head of the stream `State.rnd` of its future values;
* the debounced buttons read through `debo_get_pin` are an input record
  `Buttons`, sampled once per call of `update`;
* LCD, buzzer, EEPROM writes and busy delays do not touch the game state
  and are left out;
* an array access outside `board[ROWS][COLS]` is undefined behaviour in the
  source and is the result `Fault.outOfBounds` here; the `while (1)` loop of
  `place_food` runs on fuel (a bound on its iterations) and is
  `Fault.outOfFuel` when the bound is hit;
* the body of `update` is written once, as `updateWith`, with the function it
  calls at line 272 as a parameter; `update` is `updateWith` at `gameOver`, and
  `updateWith` at the identity returns the state of the globals at that call.
-/

namespace Snake

/-! ## Constants and enumerations -/

/-- Source: `#define ROWS 4`. -/
abbrev ROWS : Nat := 4

/-- Source: `#define COLS 20`. -/
abbrev COLS : Nat := 20

/-- Source: `#define STEP_DELAY 24`, the initial value of the step interval. -/
abbrev STEP_DELAY : Nat := 24

/-- Source: `block_t`, the content of one board cell. -/
inductive block_t where
  | bEMPTY
  | bHEAD
  | bFOOD
  | bBODY_LEFT
  | bBODY_RIGHT
  | bBODY_UP
  | bBODY_DOWN
  | bOBSTACLE
  deriving DecidableEq, Repr

/-- Source: `dir_t`, a heading. -/
inductive dir_t where
  | dLEFT
  | dRIGHT
  | dUP
  | dDOWN
  deriving DecidableEq, Repr

open block_t dir_t

/-- Numeric value of a `block_t` enumerator, as written in the source. -/
def block_t.code : block_t → Nat
  | bEMPTY => 0x00
  | bHEAD => 0x01
  | bFOOD => 0x02
  | bBODY_LEFT => 0x80
  | bBODY_RIGHT => 0x81
  | bBODY_UP => 0x82
  | bBODY_DOWN => 0x83
  | bOBSTACLE => 0x04

/-- Numeric value of a `dir_t` enumerator, as written in the source. -/
def dir_t.code : dir_t → Nat
  | dLEFT => 0x00
  | dRIGHT => 0x01
  | dUP => 0x02
  | dDOWN => 0x03

/-- The block whose numeric value is the given one, if any. -/
def block_t.ofCode (n : Nat) : Option block_t :=
  [bEMPTY, bHEAD, bFOOD, bBODY_LEFT, bBODY_RIGHT, bBODY_UP, bBODY_DOWN, bOBSTACLE].find?
    (fun b => b.code == n)

/-- Source: the expression `bBODY_LEFT + head_dir` stored into a cell. -/
def bodyOf (d : dir_t) : block_t :=
  match block_t.ofCode (bBODY_LEFT.code + d.code) with
  | some b => b
  | none => bEMPTY

/-- Whether the cell is one of the four `bBODY_*` values. -/
def block_t.isBody : block_t → Bool
  | bBODY_LEFT => true
  | bBODY_RIGHT => true
  | bBODY_UP => true
  | bBODY_DOWN => true
  | _ => false

/-- Source: `coord_t`, a pair of `int8_t`. -/
structure coord_t where
  x : Int
  y : Int
  deriving DecidableEq, Repr

/-- Conversion of an `int` to `int8_t` (two's complement wrap-around). -/
def wrap8 (v : Int) : Int := (v + 128) % 256 - 128

/-! ## Faults -/

/-- The ways in which a run of the source fails to return normally. -/
inductive Fault where
  | outOfBounds
  | outOfFuel
  deriving DecidableEq, Repr

/-! ## Board -/

/-- Source: `block_t board[ROWS][COLS]`, indexed `board[y][x]`. -/
abbrev Board := Fin ROWS → Fin COLS → block_t

/-- An `int` used as an index into an array of `n` elements. -/
def index? (n : Nat) (v : Int) : Option (Fin n) :=
  if h : 0 ≤ v ∧ v < (n : Int) then some ⟨v.toNat, by omega⟩ else none

/-- Source: the read `board[y][x]`. -/
def Board.read (b : Board) (y x : Int) : Except Fault block_t :=
  match index? ROWS y, index? COLS x with
  | some i, some j => .ok (b i j)
  | _, _ => .error Fault.outOfBounds

/-- The board with cell `(i, j)` replaced by `v`. -/
def Board.set (b : Board) (i : Fin ROWS) (j : Fin COLS) (v : block_t) : Board :=
  fun i' j' => if i' = i ∧ j' = j then v else b i' j'

/-- Source: the assignment `board[y][x] = v`. -/
def Board.write (b : Board) (y x : Int) (v : block_t) : Except Fault Board :=
  match index? ROWS y, index? COLS x with
  | some i, some j => .ok (b.set i j v)
  | _, _ => .error Fault.outOfBounds

/-- All cells of the board, row by row. -/
def allCells : List (Fin ROWS × Fin COLS) :=
  List.product (List.finRange ROWS) (List.finRange COLS)

/-- Number of cells of the board whose content satisfies `p`. -/
def countCells (p : block_t → Bool) (b : Board) : Nat :=
  allCells.countP (fun c => p (b c.1 c.2))

/-! ## Game state -/

/-- The debounced buttons `debo_get_pin(D_*)` as seen by one call of `update`. -/
structure Buttons where
  left : Bool
  right : Bool
  up : Bool
  down : Bool
  pause : Bool
  restart : Bool
  deriving DecidableEq, Repr

/-- No button asserted. -/
def noButtons : Buttons :=
  { left := false, right := false, up := false, down := false, pause := false, restart := false }

/-- The globals of `Snake.cpp`. `step_delay` is the step interval: the source
names it by the macro `STEP_DELAY`, compares `presc` with it and decrements it
in `adjustSpeed`, so it is a variable whose initial value is `STEP_DELAY`.
`rnd` is the stream of values that the coming calls of `rand()` return. -/
structure State where
  crashed : Bool
  snake_len : Nat
  score : Nat
  highScore : Nat
  board : Board
  head_pos : coord_t
  tail_pos : coord_t
  head_dir : dir_t
  restart_held : Bool
  pause_held : Bool
  paused : Bool
  presc : Nat
  step_delay : Nat
  rnd : Nat → Nat

/-! ## Operations -/

/-- Source: `updateScore`: `score += 10` on a `uint16_t`. -/
def updateScore (s : State) : State :=
  { s with score := (s.score + 10) % 65536 }

/-- Source: `saveHighScore`. -/
def saveHighScore (s : State) : State :=
  if s.score > s.highScore then { s with highScore := s.score } else s

/-- Source: `adjustSpeed`. -/
def adjustSpeed (s : State) : State :=
  if s.score % 50 = 0 ∧ s.step_delay > 10 then { s with step_delay := s.step_delay - 1 } else s

/-- Source: `place_food`. Each round of the `while (1)` loop draws `xx` and then
`yy`; `fuel` bounds the number of rounds. -/
def place_food : Nat → State → Except Fault State
  | 0, _ => .error Fault.outOfFuel
  | fuel + 1, s =>
    let xx : Nat := (s.rnd 0 % COLS) % 256
    let yy : Nat := (s.rnd 1 % ROWS) % 256
    let s1 : State := { s with rnd := fun k => s.rnd (k + 2) }
    match s1.board.read yy xx with
    | .error e => .error e
    | .ok c =>
      if c = bEMPTY then
        match s1.board.write yy xx bFOOD with
        | .error e => .error e
        | .ok b => .ok { s1 with board := b }
      else place_food fuel s1

/-- One round of the `for` loop of `placeObstacles`. -/
def obstacleRound (s : State) : Except Fault State :=
  let x : Nat := (s.rnd 0 % COLS) % 256
  let y : Nat := (s.rnd 1 % ROWS) % 256
  let s1 : State := { s with rnd := fun k => s.rnd (k + 2) }
  match s1.board.read y x with
  | .error e => .error e
  | .ok c =>
    if c = bEMPTY then
      match s1.board.write y x bOBSTACLE with
      | .error e => .error e
      | .ok b => .ok { s1 with board := b }
    else .ok s1

/-- Source: `placeObstacles(numObstacles)`: the state after the first
`numObstacles` rounds of the loop. -/
def placeObstacles : Nat → State → Except Fault State
  | 0, s => .ok s
  | n + 1, s =>
    match placeObstacles n s with
    | .error e => .error e
    | .ok s1 => obstacleRound s1

/-- Source: the nested loops at the start of `init_gameboard`, which assign
`bEMPTY` to `board[y][x]` for `x` from 0 to `COLS - 1` and, inside, `y` from 0 to
`ROWS - 1`. -/
def clearBoard (b : Board) : Board :=
  (List.finRange COLS).foldl
    (fun b x => (List.finRange ROWS).foldl (fun b y => b.set y x bEMPTY) b) b

/-- Source: `init_gameboard`. -/
def init_gameboard (fuel : Nat) (s : State) : Except Fault State :=
  let b0 := clearBoard s.board
  let b1 := b0.set 0 0 bBODY_RIGHT
  let b2 := b1.set 0 1 bBODY_RIGHT
  let b3 := b2.set 0 2 bBODY_RIGHT
  let b4 := b3.set 0 3 bHEAD
  let s1 : State :=
    { s with
      tail_pos := { x := 0, y := 0 }
      board := b4
      head_pos := { x := 3, y := 0 }
      snake_len := 4
      head_dir := dRIGHT
      crashed := false }
  match place_food fuel s1 with
  | .error e => .error e
  | .ok s2 => placeObstacles 5 s2

/-- Source: `gameOver`. -/
def gameOver (fuel : Nat) (s : State) : Except Fault State :=
  init_gameboard fuel (saveHighScore s)

/-- Source: lines 227-244 of `update`, the restart and pause edge latches. -/
def latchButtons (fuel : Nat) (btn : Buttons) (s : State) : Except Fault State :=
  let r : Except Fault State :=
    if btn.restart then
      if !s.restart_held then
        match init_gameboard fuel s with
        | .error e => .error e
        | .ok s1 => .ok { s1 with presc := 0, restart_held := true }
      else .ok s
    else .ok { s with restart_held := false }
  match r with
  | .error e => .error e
  | .ok s1 =>
    if btn.pause then
      if !s1.pause_held then
        .ok { s1 with paused := xor s1.paused true, pause_held := true }
      else .ok s1
    else .ok { s1 with pause_held := false }

/-- Source: lines 252-255 of `update`, the heading chosen by the directional
buttons. -/
def steer (btn : Buttons) (d : dir_t) : dir_t :=
  if btn.left then dLEFT
  else if btn.right then dRIGHT
  else if btn.up then dUP
  else if btn.down then dDOWN
  else d

/-- Source: the `switch (head_dir)` of lines 261-266, on `int8_t` coordinates. -/
def advance (d : dir_t) (p : coord_t) : coord_t :=
  match d with
  | dLEFT => { p with x := wrap8 (p.x - 1) }
  | dRIGHT => { p with x := wrap8 (p.x + 1) }
  | dUP => { p with y := wrap8 (p.y - 1) }
  | dDOWN => { p with y := wrap8 (p.y + 1) }

/-- Source: the `switch (board[new_tail.y][new_tail.x])` of lines 286-291. -/
def retract (c : block_t) (p : coord_t) : coord_t :=
  match c with
  | bBODY_LEFT => { p with x := wrap8 (p.x - 1) }
  | bBODY_RIGHT => { p with x := wrap8 (p.x + 1) }
  | bBODY_UP => { p with y := wrap8 (p.y - 1) }
  | bBODY_DOWN => { p with y := wrap8 (p.y + 1) }
  | _ => p

/-- Source: lines 274-294 of `update`, the `else` branch taken when the cell
under the new head is `bEMPTY`; `oldpos` is the head before the move. -/
def moveSnake (fuel : Nat) (oldpos : coord_t) (s : State) : Except Fault State :=
  match s.board.read s.head_pos.y s.head_pos.x with
  | .error e => .error e
  | .ok c =>
    if c = bFOOD then
      match s.board.write oldpos.y oldpos.x (bodyOf s.head_dir) with
      | .error e => .error e
      | .ok b1 =>
        match b1.write s.head_pos.y s.head_pos.x bHEAD with
        | .error e => .error e
        | .ok b2 =>
          match place_food fuel { s with board := b2, snake_len := (s.snake_len + 1) % 256 } with
          | .error e => .error e
          | .ok s1 => .ok (adjustSpeed (updateScore s1))
    else
      match s.board.write oldpos.y oldpos.x (bodyOf s.head_dir) with
      | .error e => .error e
      | .ok b1 =>
        match b1.read s.tail_pos.y s.tail_pos.x with
        | .error e => .error e
        | .ok t =>
          match b1.write s.tail_pos.y s.tail_pos.x bEMPTY with
          | .error e => .error e
          | .ok b2 => .ok { s with board := b2, tail_pos := retract t s.tail_pos }

/-- Source: lines 258-295 of `update`, the snake step run when the prescaler
fires. The call `gameOver()` of line 272 is the parameter `onCrash`, applied to
the state of the globals at the moment of the call, and its result is the result
of the step; with the identity for `onCrash` the step returns that state. -/
def snakeStepWith (onCrash : State → Except Fault State) (fuel : Nat) (s : State) :
    Except Fault State :=
  let oldpos := s.head_pos
  let s1 : State := { s with presc := 0, head_pos := advance s.head_dir s.head_pos }
  if s1.head_pos.x = -1 ∨ s1.head_pos.x = COLS ∨ s1.head_pos.y = -1 ∨ s1.head_pos.y = ROWS then
    onCrash { s1 with crashed := true }
  else
    match s1.board.read s1.head_pos.y s1.head_pos.x with
    | .error e => .error e
    | .ok c =>
      if c ≠ bEMPTY then onCrash { s1 with crashed := true }
      else moveSnake fuel oldpos s1

/-- Source: lines 251-297 of `update`, run when the game is not paused, with the
call `gameOver()` as the parameter `onCrash`. -/
def playTickWith (onCrash : State → Except Fault State) (fuel : Nat) (btn : Buttons)
    (s : State) : Except Fault State :=
  if !s.crashed then
    let s1 : State := { s with head_dir := steer btn s.head_dir }
    let s2 : State := { s1 with presc := (s1.presc + 1) % 256 }
    if s1.presc = s1.step_delay then snakeStepWith onCrash fuel s2 else .ok s2
  else .ok s

/-- Source: `update`, one pass of the main loop, with the call `gameOver()` of
line 272 as the parameter `onCrash`. -/
def updateWith (onCrash : State → Except Fault State) (fuel : Nat) (btn : Buttons)
    (s : State) : Except Fault State :=
  match latchButtons fuel btn s with
  | .error e => .error e
  | .ok s1 => if s1.paused then .ok s1 else playTickWith onCrash fuel btn s1

/-- Source: lines 258-295 of `update`, the snake step, calling `gameOver`. -/
def snakeStep (fuel : Nat) (s : State) : Except Fault State :=
  snakeStepWith (gameOver fuel) fuel s

/-- Source: lines 251-297 of `update`, run when the game is not paused, calling
`gameOver`. -/
def playTick (fuel : Nat) (btn : Buttons) (s : State) : Except Fault State :=
  playTickWith (gameOver fuel) fuel btn s

/-- Source: `update`, one pass of the main loop, calling `gameOver`. -/
def update (fuel : Nat) (btn : Buttons) (s : State) : Except Fault State :=
  updateWith (gameOver fuel) fuel btn s

/-- Consecutive calls of `update`, one per element of `btns`. -/
def run (fuel : Nat) : List Buttons → State → Except Fault State
  | [], s => .ok s
  | btn :: rest, s =>
    match update fuel btn s with
    | .error e => .error e
    | .ok s1 => run fuel rest s1

/-- The globals at program start, before `main` runs: zero-initialised, with
the step interval at `STEP_DELAY`. -/
def zeroState (rnd : Nat → Nat) : State :=
  { crashed := false
    snake_len := 0
    score := 0
    highScore := 0
    board := fun _ _ => bEMPTY
    head_pos := { x := 0, y := 0 }
    tail_pos := { x := 0, y := 0 }
    head_dir := dLEFT
    restart_held := false
    pause_held := false
    paused := false
    presc := 0
    step_delay := STEP_DELAY
    rnd := rnd }

/-- Source: `main` up to the loop: `init_gameboard()` and then `loadHighScore()`,
which reads the value `hs` from the EEPROM. -/
def boot (fuel : Nat) (rnd : Nat → Nat) (hs : Nat) : Except Fault State :=
  match init_gameboard fuel (zeroState rnd) with
  | .error e => .error e
  | .ok s => .ok { s with highScore := hs }

/-! ## Auxiliary definitions for the statements -/

/-- The column drawn by the next placement round: `rand() % COLS` as a `uint8_t`. -/
def drawCol (s : State) : Fin COLS :=
  ⟨(s.rnd 0 % COLS) % 256, Nat.lt_of_le_of_lt (Nat.mod_le _ _) (Nat.mod_lt _ (by decide))⟩

/-- The row drawn by the next placement round: the second `rand() % ROWS`. -/
def drawRow (s : State) : Fin ROWS :=
  ⟨(s.rnd 1 % ROWS) % 256, Nat.lt_of_le_of_lt (Nat.mod_le _ _) (Nat.mod_lt _ (by decide))⟩

/-- The state once a placement round has consumed its two random values. -/
def afterDraw (s : State) : State := { s with rnd := fun k => s.rnd (k + 2) }

/-- Cell by cell, `b'` is `b` except that empty cells may have become `v`. -/
def OnlyFills (v : block_t) (b b' : Board) : Prop :=
  ∀ i j, b' i j = b i j ∨ (b i j = bEMPTY ∧ b' i j = v)

/-- Whether a cell is an obstacle. -/
def block_t.isObstacle (c : block_t) : Bool := c == bOBSTACLE

/-- Whether a cell is food. -/
def block_t.isFood (c : block_t) : Bool := c == bFOOD

/-- Whether a cell is the head. -/
def block_t.isHead (c : block_t) : Bool := c == bHEAD

/-- The board that `init_gameboard` builds before it places food and
obstacles: all empty but for the snake in row 0, columns 0 to 3. -/
def startBoard : Board :=
  (((Board.set (fun _ _ => bEMPTY) 0 0 bBODY_RIGHT).set 0 1 bBODY_RIGHT).set 0 2
    bBODY_RIGHT).set 0 3 bHEAD

/-- A freshly initialised board: the snake in row 0 (three `bBODY_RIGHT` cells and
the head at column 3), exactly one food cell, at most five obstacles, and every
other cell empty. -/
def FreshLayout (b : Board) : Prop :=
  b 0 0 = bBODY_RIGHT ∧ b 0 1 = bBODY_RIGHT ∧ b 0 2 = bBODY_RIGHT ∧ b 0 3 = bHEAD ∧
  (∀ i j, ¬ (i = 0 ∧ j.val ≤ 3) → b i j = bEMPTY ∨ b i j = bFOOD ∨ b i j = bOBSTACLE) ∧
  countCells block_t.isFood b = 1 ∧
  countCells block_t.isObstacle b ≤ 5

/-- The state with which the snake step starts: heading chosen by the buttons,
prescaler incremented (`presc++` on a `uint8_t`). -/
def stepInput (btn : Buttons) (s : State) : State :=
  { s with head_dir := steer btn s.head_dir, presc := (s.presc + 1) % 256 }

/-- The state that `update` hands to `gameOver` on a collision: prescaler
cleared, head coordinate moved one cell on, `crashed` set, board untouched. -/
def crashState (s : State) : State :=
  { s with presc := 0, head_pos := advance s.head_dir s.head_pos, crashed := true }

/-- The new head coordinate lies one step outside the board. -/
def HitsWall (p : coord_t) : Prop :=
  p.x = -1 ∨ p.x = (COLS : Int) ∨ p.y = -1 ∨ p.y = (ROWS : Int)

instance (p : coord_t) : Decidable (HitsWall p) := by
  unfold HitsWall
  infer_instance

/-- All draws equal to 9: every placement round lands on row 1, column 9. -/
def rndNine : Nat → Nat := fun _ => 9

/-- The draws 4, 0 first, so that the food of the startup `init_gameboard` lands
on row 0, column 4, right ahead of the head; 9, 0 at the thirteenth and
fourteenth call of `rand()`, the food of the next `init_gameboard` (row 0,
column 9); 0 elsewhere, so that every obstacle draw lands on the tail cell and
is skipped. -/
def rndFoodAhead : Nat → Nat := fun k => if k = 0 then 4 else if k = 12 then 9 else 0

/-- Only the Up button asserted. -/
def upButton : Buttons := { noButtons with up := true }

/-- Only the Left button asserted. -/
def leftButton : Buttons := { noButtons with left := true }

/-- Only the Restart button asserted. -/
def restartButton : Buttons := { noButtons with restart := true }

/-- Restart and Left asserted together. -/
def restartLeftButton : Buttons := { noButtons with restart := true, left := true }

/-- The game 24 idle calls of `update` after startup, all draws being 9: the
snake at its start, food on row 1, column 9, and the prescaler at the step
interval, so that the next call steps the snake. -/
def readyState : State :=
  { crashed := false
    snake_len := 4
    score := 0
    highScore := 0
    board := startBoard.set 1 9 bFOOD
    head_pos := { x := 3, y := 0 }
    tail_pos := { x := 0, y := 0 }
    head_dir := dRIGHT
    restart_held := false
    pause_held := false
    paused := false
    presc := 24
    step_delay := 24
    rnd := rndNine }

/-- Source: lines 237-244 of `update`, the pause latch on its own. -/
def pauseLatch (btn : Buttons) (s : State) : State :=
  if btn.pause then
    if !s.pause_held then { s with paused := xor s.paused true, pause_held := true } else s
  else { s with pause_held := false }

/-- Consecutive calls of `adjustSpeed`, one per element of `scores`, each made
with the score at that value. -/
def adjustCalls (scores : List Nat) (s : State) : State :=
  scores.foldl (fun t sc => adjustSpeed { t with score := sc }) s

/-- The cell drawn by round `k` (counted from 0) of the loop of `place_food`:
column from the value of call `2 * k` of `rand()`, row from call `2 * k + 1`. -/
def roundCell (s : State) (k : Nat) : Fin ROWS × Fin COLS :=
  (⟨(s.rnd (2 * k + 1) % ROWS) % 256,
      Nat.lt_of_le_of_lt (Nat.mod_le _ _) (Nat.mod_lt _ (by decide))⟩,
    ⟨(s.rnd (2 * k) % COLS) % 256,
      Nat.lt_of_le_of_lt (Nat.mod_le _ _) (Nat.mod_lt _ (by decide))⟩)

/-- Whether a cell is empty. -/
def block_t.isEmpty (c : block_t) : Bool := c == bEMPTY

/-- Draws that land on the tail cell (row 0, column 0) in the first `n` rounds
and on row 1, column 9 from then on. -/
def rndLate (n : Nat) : Nat → Nat := fun k => if k < 2 * n then 0 else 9

/-- The coordinate (column `x`, row `y`) of a cell of the board. -/
def coordOf (c : Fin ROWS × Fin COLS) : coord_t :=
  { x := ((c.2 : Nat) : Int), y := ((c.1 : Nat) : Int) }

/-- The content of a cell of the board. -/
def Board.cell (b : Board) (c : Fin ROWS × Fin COLS) : block_t := b c.1 c.2

/-- One link of the snake: from a coordinate that holds a body segment, the
coordinate one step on in the direction stored there. -/
def bodyStep (b : Board) (p : coord_t) : Option coord_t :=
  match b.read p.y p.x with
  | .ok c => if c.isBody then some (retract c p) else none
  | .error _ => none

/-- The coordinate reached from `p` by following `n` links of the snake. -/
def follow : Nat → Board → coord_t → Option coord_t
  | 0, _, p => some p
  | n + 1, b, p =>
    match bodyStep b p with
    | some q => follow n b q
    | none => none

/-- The snake of length 4 as it lies on the board: three distinct body cells
`c0`, `c1`, `c2`, each pointing to the next and the last to the head cell `c3`;
the tail coordinate is `c0` and the head coordinate `c3`; the head cell holds
`bHEAD` or is empty; no other cell holds a body segment or `bHEAD`. -/
def Chain (b : Board) (tail head : coord_t) : Prop :=
  ∃ c0 c1 c2 c3 : Fin ROWS × Fin COLS,
    tail = coordOf c0 ∧ head = coordOf c3 ∧
    (b.cell c0).isBody = true ∧ (b.cell c1).isBody = true ∧ (b.cell c2).isBody = true ∧
    retract (b.cell c0) (coordOf c0) = coordOf c1 ∧
    retract (b.cell c1) (coordOf c1) = coordOf c2 ∧
    retract (b.cell c2) (coordOf c2) = coordOf c3 ∧
    (b.cell c3 = bHEAD ∨ b.cell c3 = bEMPTY) ∧
    c0 ≠ c1 ∧ c0 ≠ c2 ∧ c1 ≠ c2 ∧
    (∀ c, (b.cell c).isBody = true → c = c0 ∨ c = c1 ∨ c = c2) ∧
    (∀ c, b.cell c = bHEAD → c = c3)

/-- The invariant of the running game: not crashed, length 4, score 0, step
interval 24, and the snake chain on the board. -/
def Inv (s : State) : Prop :=
  s.crashed = false ∧ s.snake_len = 4 ∧ s.score = 0 ∧ s.step_delay = STEP_DELAY ∧
  Chain s.board s.tail_pos s.head_pos

/-- The states the program can be in between two calls of `update`: the state
after startup, and every state a returning call of `update` produces from
such a state, for any buttons. The random draws are the stream chosen at
startup. -/
inductive Reachable : State → Prop where
  | start (fuel : Nat) (rnd : Nat → Nat) (hs : Nat) (s : State) :
      boot fuel rnd hs = .ok s → Reachable s
  | step (fuel : Nat) (btn : Buttons) (s s' : State) :
      Reachable s → update fuel btn s = .ok s' → Reachable s'

/-! ## Lemmas -/

theorem index?_natCast {n : Nat} (k : Nat) (h : k < n) : index? n (k : Int) = some ⟨k, h⟩ := by
  unfold index?
  have h' : 0 ≤ (k : Int) ∧ (k : Int) < (n : Int) := by omega
  simp [h']

theorem index?_eq_some {n : Nat} {v : Int} {i : Fin n} (h : index? n v = some i) :
    ((i : Nat) : Int) = v := by
  unfold index? at h
  split at h
  · rename_i hv
    simp only [Option.some.injEq] at h
    subst h
    simp only [Int.toNat_of_nonneg hv.1]
  · simp at h

theorem index?_eq_none {n : Nat} {v : Int} (h : v < 0 ∨ (n : Int) ≤ v) : index? n v = none := by
  unfold index?
  have h' : ¬ (0 ≤ v ∧ v < (n : Int)) := by omega
  simp [h']

theorem Board.read_cell (b : Board) (i : Fin ROWS) (j : Fin COLS) :
    b.read ((i : Nat) : Int) ((j : Nat) : Int) = .ok (b i j) := by
  unfold Board.read
  rw [index?_natCast i.1 i.2, index?_natCast j.1 j.2]

theorem Board.write_cell (b : Board) (i : Fin ROWS) (j : Fin COLS) (v : block_t) :
    b.write ((i : Nat) : Int) ((j : Nat) : Int) v = .ok (b.set i j v) := by
  unfold Board.write
  rw [index?_natCast i.1 i.2, index?_natCast j.1 j.2]

theorem Board.read_ok {b : Board} {y x : Int} {c : block_t} (h : b.read y x = .ok c) :
    ∃ i : Fin ROWS, ∃ j : Fin COLS, ((i : Nat) : Int) = y ∧ ((j : Nat) : Int) = x ∧ b i j = c := by
  unfold Board.read at h
  split at h
  · rename_i i j hi hj
    simp only [Except.ok.injEq] at h
    exact ⟨i, j, index?_eq_some hi, index?_eq_some hj, h⟩
  · simp at h

theorem Board.set_same (b : Board) (i : Fin ROWS) (j : Fin COLS) (v : block_t) :
    b.set i j v i j = v := by
  simp [Board.set]

theorem Board.set_other (b : Board) (i i' : Fin ROWS) (j j' : Fin COLS) (v : block_t)
    (h : ¬ (i' = i ∧ j' = j)) : b.set i j v i' j' = b i' j' := by
  simp [Board.set, h]

theorem mem_allCells (c : Fin ROWS × Fin COLS) : c ∈ allCells := by
  obtain ⟨i, j⟩ := c
  exact List.mem_product.2 ⟨List.mem_finRange i, List.mem_finRange j⟩

theorem nodup_allCells : allCells.Nodup := by
  unfold allCells
  exact List.Nodup.product (List.nodup_finRange _) (List.nodup_finRange _)

theorem countP_point {α : Type} (l : List α) (a : α) (q q' : α → Bool)
    (hq : ∀ c, c ≠ a → q' c = q c) :
    (a ∉ l → l.countP q' = l.countP q) ∧
    (l.Nodup → a ∈ l →
      l.countP q' + (if q a then 1 else 0) = l.countP q + (if q' a then 1 else 0)) := by
  induction l with
  | nil => simp
  | cons c l ih =>
    constructor
    · intro hn
      simp only [List.mem_cons, not_or] at hn
      rw [List.countP_cons, List.countP_cons, ih.1 hn.2, hq c (fun e => hn.1 e.symm)]
    · intro hnd hm
      rw [List.nodup_cons] at hnd
      rw [List.countP_cons, List.countP_cons]
      by_cases hca : c = a
      · subst hca
        rw [ih.1 hnd.1]
        omega
      · have hm' : a ∈ l := by
          rcases List.mem_cons.1 hm with h | h
          · exact absurd h.symm hca
          · exact h
        have := ih.2 hnd.2 hm'
        rw [hq c hca]
        omega

theorem countCells_set (p : block_t → Bool) (b : Board) (i : Fin ROWS) (j : Fin COLS)
    (v : block_t) :
    countCells p (b.set i j v) + (if p (b i j) then 1 else 0)
      = countCells p b + (if p v then 1 else 0) := by
  have h := (countP_point allCells (i, j) (fun c => p (b c.1 c.2))
    (fun c => p (b.set i j v c.1 c.2)) (by
      intro c hc
      have : ¬ (c.1 = i ∧ c.2 = j) := fun e => hc (Prod.ext e.1 e.2)
      simp only [Board.set_other b i c.1 j c.2 v this])).2 nodup_allCells (mem_allCells _)
  simpa [countCells, Board.set_same] using h

theorem foldl_set_rows (x : Fin COLS) (rows : List (Fin ROWS)) (b : Board)
    (i : Fin ROWS) (j : Fin COLS) :
    rows.foldl (fun b y => b.set y x bEMPTY) b i j
      = if i ∈ rows ∧ j = x then bEMPTY else b i j := by
  induction rows generalizing b with
  | nil => simp
  | cons y rows ih =>
    rw [List.foldl_cons, ih]
    by_cases h1 : i ∈ rows ∧ j = x
    · simp [h1]
    · by_cases h2 : i = y ∧ j = x
      · simp [h2, Board.set]
      · have h3 : ¬ (i ∈ y :: rows ∧ j = x) := by
          simp only [List.mem_cons]
          tauto
        rw [if_neg h1, if_neg h3, Board.set_other _ _ _ _ _ _ h2]

theorem foldl_set_cols (cols : List (Fin COLS)) (b : Board) (i : Fin ROWS) (j : Fin COLS) :
    cols.foldl (fun b x => (List.finRange ROWS).foldl (fun b y => b.set y x bEMPTY) b) b i j
      = if j ∈ cols then bEMPTY else b i j := by
  induction cols generalizing b with
  | nil => simp
  | cons x cols ih =>
    rw [List.foldl_cons, ih, foldl_set_rows]
    by_cases h1 : j ∈ cols
    · simp [h1]
    · by_cases h2 : j = x
      · simp [h2, List.mem_finRange]
      · simp [h1, h2]

theorem clearBoard_eq (b : Board) : clearBoard b = fun _ _ => bEMPTY := by
  funext i j
  unfold clearBoard
  rw [foldl_set_cols]
  simp [List.mem_finRange]

theorem place_food_succ (fuel : Nat) (s : State) :
    place_food (fuel + 1) s =
      if s.board (drawRow s) (drawCol s) = bEMPTY then
        .ok { afterDraw s with board := s.board.set (drawRow s) (drawCol s) bFOOD }
      else place_food fuel (afterDraw s) := by
  have hr := Board.read_cell s.board (drawRow s) (drawCol s)
  have hw := Board.write_cell s.board (drawRow s) (drawCol s) bFOOD
  simp only [drawRow, drawCol] at hr hw
  simp only [place_food, hr, hw, drawRow, drawCol, afterDraw]

theorem obstacleRound_eq (s : State) :
    obstacleRound s =
      .ok (if s.board (drawRow s) (drawCol s) = bEMPTY then
        { afterDraw s with board := s.board.set (drawRow s) (drawCol s) bOBSTACLE }
      else afterDraw s) := by
  have hr := Board.read_cell s.board (drawRow s) (drawCol s)
  have hw := Board.write_cell s.board (drawRow s) (drawCol s) bOBSTACLE
  simp only [drawRow, drawCol] at hr hw
  simp only [obstacleRound, hr, hw, drawRow, drawCol, afterDraw]
  split <;> rfl

/-- What a successful `place_food` does: one empty cell becomes food, the random
stream advances, nothing else changes. -/
theorem place_food_ok {fuel : Nat} {s s' : State} (h : place_food fuel s = .ok s') :
    ∃ i j r, s.board i j = bEMPTY ∧ s' = { s with board := s.board.set i j bFOOD, rnd := r } := by
  induction fuel generalizing s with
  | zero => simp [place_food] at h
  | succ fuel ih =>
    rw [place_food_succ] at h
    split at h
    · rename_i he
      simp only [Except.ok.injEq] at h
      exact ⟨_, _, _, he, h.symm⟩
    · obtain ⟨i, j, r, he, hs⟩ := ih h
      exact ⟨i, j, r, he, hs⟩

theorem place_food_inBounds (fuel : Nat) (s : State) :
    place_food fuel s ≠ .error Fault.outOfBounds := by
  induction fuel generalizing s with
  | zero => simp [place_food]
  | succ fuel ih =>
    rw [place_food_succ]
    split
    · simp
    · exact ih _

theorem OnlyFills.refl (v : block_t) (b : Board) : OnlyFills v b b :=
  fun _ _ => Or.inl rfl

theorem OnlyFills.trans {v : block_t} {b1 b2 b3 : Board} (h12 : OnlyFills v b1 b2)
    (h23 : OnlyFills v b2 b3) : OnlyFills v b1 b3 := by
  intro i j
  rcases h12 i j with h | ⟨h, h'⟩ <;> rcases h23 i j with g | ⟨g, g'⟩
  · exact Or.inl (g.trans h)
  · exact Or.inr ⟨h ▸ g, g'⟩
  · exact Or.inr ⟨h, g.trans h'⟩
  · exact Or.inr ⟨h, g'⟩

theorem OnlyFills.set {v : block_t} {b : Board} {i : Fin ROWS} {j : Fin COLS}
    (h : b i j = bEMPTY) : OnlyFills v b (b.set i j v) := by
  intro i' j'
  by_cases hc : i' = i ∧ j' = j
  · obtain ⟨rfl, rfl⟩ := hc
    exact Or.inr ⟨h, Board.set_same _ _ _ _⟩
  · exact Or.inl (Board.set_other _ _ _ _ _ _ hc)

/-- One round of `placeObstacles`: fields other than the board and the random
stream are kept, only an empty cell may change, and the number of cells
satisfying `p` moves as the drawn cell does. -/
theorem obstacleRound_ok (s : State) :
    ∃ b r, obstacleRound s = .ok { s with board := b, rnd := r } ∧
      OnlyFills bOBSTACLE s.board b ∧
      (s.board (drawRow s) (drawCol s) ≠ bEMPTY → b = s.board) ∧
      (s.board (drawRow s) (drawCol s) = bEMPTY →
        b = s.board.set (drawRow s) (drawCol s) bOBSTACLE) := by
  rw [obstacleRound_eq]
  by_cases he : s.board (drawRow s) (drawCol s) = bEMPTY
  · refine ⟨s.board.set (drawRow s) (drawCol s) bOBSTACLE, fun k => s.rnd (k + 2), ?_,
      OnlyFills.set he, fun h => absurd he h, fun _ => rfl⟩
    rw [if_pos he]
    rfl
  · refine ⟨s.board, fun k => s.rnd (k + 2), ?_, OnlyFills.refl _ _, fun _ => rfl,
      fun h => absurd h he⟩
    rw [if_neg he]
    rfl

theorem count_obstacleRound (p : block_t → Bool) (hp : p bEMPTY = false) (s : State) :
    ∃ b r, obstacleRound s = .ok { s with board := b, rnd := r } ∧
      countCells p b ≤ countCells p s.board + (if p bOBSTACLE then 1 else 0) ∧
      countCells p s.board ≤ countCells p b ∧
      (s.board (drawRow s) (drawCol s) ≠ bEMPTY → countCells p b = countCells p s.board) := by
  obtain ⟨b, r, h, -, h1, h2⟩ := obstacleRound_ok s
  refine ⟨b, r, h, ?_⟩
  by_cases he : s.board (drawRow s) (drawCol s) = bEMPTY
  · have hc := countCells_set p s.board (drawRow s) (drawCol s) bOBSTACLE
    rw [he, hp] at hc
    rw [h2 he]
    simp only [Bool.false_eq_true, if_false, Nat.add_zero] at hc
    refine ⟨by omega, by omega, fun h => absurd he h⟩
  · rw [h1 he]
    exact ⟨by omega, le_refl _, fun _ => rfl⟩

theorem OnlyFills.keeps {v : block_t} {b b' : Board} (h : OnlyFills v b b') {i : Fin ROWS}
    {j : Fin COLS} (hne : b i j ≠ bEMPTY) : b' i j = b i j := by
  rcases h i j with h | ⟨h, -⟩
  · exact h
  · exact absurd h hne

theorem countCells_of_onlyFills {p : block_t → Bool} {v : block_t} {b b' : Board}
    (hE : p bEMPTY = false) (hv : p v = false) (h : OnlyFills v b b') :
    countCells p b' = countCells p b := by
  unfold countCells
  congr 1
  funext c
  rcases h c.1 c.2 with h | ⟨h1, h2⟩
  · rw [h]
  · rw [h1, h2, hE, hv]

/-- The rounds of `placeObstacles`: the call always returns, keeps every field
but the board and the random stream, only fills empty cells with obstacles, and
changes a cell count by at most one per round and by nothing in a round whose
draw lands on a cell that is not empty. -/
theorem placeObstacles_ok (p : block_t → Bool) (hp : p bEMPTY = false) (n : Nat) (s : State) :
    ∃ b r, placeObstacles n s = .ok { s with board := b, rnd := r } ∧
      OnlyFills bOBSTACLE s.board b ∧
      countCells p b ≤ countCells p s.board + n ∧
      (∀ k sk, k < n → placeObstacles k s = .ok sk →
        sk.board (drawRow sk) (drawCol sk) ≠ bEMPTY →
        countCells p b < countCells p s.board + n) := by
  induction n with
  | zero => exact ⟨s.board, s.rnd, rfl, OnlyFills.refl _ _, le_refl _, fun k _ hk => by omega⟩
  | succ n ih =>
    obtain ⟨bn, rn, hn, hfill, hle, hlt⟩ := ih
    obtain ⟨b, r, hr, hc1, -, hc3⟩ :=
      count_obstacleRound p hp { s with board := bn, rnd := rn }
    obtain ⟨b', r', hr', hfill', -, -⟩ := obstacleRound_ok { s with board := bn, rnd := rn }
    have hbb : b' = b := by
      have := hr'.symm.trans hr
      simp only [Except.ok.injEq, State.mk.injEq, true_and] at this
      exact this.1
    subst hbb
    refine ⟨b', r, ?_, hfill.trans hfill', ?_, ?_⟩
    · simp only [placeObstacles, hn]
      exact hr
    · have : (if p bOBSTACLE = true then 1 else 0) ≤ 1 := by split <;> omega
      simp only at hc1
      omega
    · intro k sk hk hsk hland
      have h1 : (if p bOBSTACLE = true then 1 else 0) ≤ 1 := by split <;> omega
      simp only at hc1 hc3
      rcases Nat.lt_succ_iff_lt_or_eq.1 hk with hk' | hk'
      · have := hlt k sk hk' hsk hland
        omega
      · subst hk'
        rw [hn] at hsk
        simp only [Except.ok.injEq] at hsk
        subst hsk
        have := hc3 hland
        omega

theorem startBoard_off_snake : ∀ (i : Fin ROWS) (j : Fin COLS),
    ¬ (i = 0 ∧ j.val ≤ 3) → startBoard i j = bEMPTY := by
  decide

theorem startBoard_counts :
    countCells block_t.isFood startBoard = 0 ∧ countCells block_t.isObstacle startBoard = 0 := by
  decide

/-- What a successful `init_gameboard` leaves behind. -/
theorem init_gameboard_ok {fuel : Nat} {s s' : State} (h : init_gameboard fuel s = .ok s') :
    ∃ b r, FreshLayout b ∧
      s' = { s with
        tail_pos := { x := 0, y := 0 }
        board := b
        head_pos := { x := 3, y := 0 }
        snake_len := 4
        head_dir := dRIGHT
        crashed := false
        rnd := r } := by
  unfold init_gameboard at h
  simp only [clearBoard_eq] at h
  split at h
  · simp at h
  · rename_i s2 hpf
    obtain ⟨i, j, r, he, hs2⟩ := place_food_ok hpf
    simp only at he hs2
    change startBoard i j = bEMPTY at he
    obtain ⟨b, r', hpo, hfill, hle, -⟩ := placeObstacles_ok block_t.isObstacle rfl 5 s2
    rw [hpo] at h
    simp only [Except.ok.injEq] at h
    have hb2 : s2.board = startBoard.set i j bFOOD := by rw [hs2]; rfl
    have hfood : OnlyFills bFOOD startBoard s2.board := hb2 ▸ OnlyFills.set he
    rw [hb2] at hfill hle
    rw [hb2] at hfood
    have keep : ∀ i' j', startBoard i' j' ≠ bEMPTY → b i' j' = startBoard i' j' := by
      intro i' j' hne
      have h1 := hfood.keeps hne
      rw [hfill.keeps (by rw [h1]; exact hne), h1]
    refine ⟨b, r', ⟨?_, ?_, ?_, ?_, ?_, ?_, ?_⟩, ?_⟩
    · exact keep 0 0 (by decide)
    · exact keep 0 1 (by decide)
    · exact keep 0 2 (by decide)
    · exact keep 0 3 (by decide)
    · intro i' j' hoff
      have h0 := startBoard_off_snake i' j' hoff
      rcases hfill i' j' with h1 | ⟨-, h1⟩
      · rcases hfood i' j' with h2 | ⟨-, h2⟩
        · exact Or.inl (by rw [h1, h2, h0])
        · exact Or.inr (Or.inl (by rw [h1, h2]))
      · exact Or.inr (Or.inr h1)
    · rw [countCells_of_onlyFills rfl rfl hfill]
      have := countCells_set block_t.isFood startBoard i j bFOOD
      rw [he, startBoard_counts.1] at this
      simpa using this
    · rw [countCells_of_onlyFills (p := block_t.isObstacle) (v := bFOOD) rfl rfl hfood, startBoard_counts.2]
        at hle
      simpa using hle
    · rw [← h, hs2]

theorem update_of_latch {fuel : Nat} {btn : Buttons} {s s1 : State}
    (hl : latchButtons fuel btn s = .ok s1) :
    update fuel btn s = if s1.paused then .ok s1 else playTick fuel btn s1 := by
  unfold update updateWith
  rw [hl]
  rfl

theorem playTick_fires {fuel : Nat} {btn : Buttons} {s : State} (hc : s.crashed = false)
    (hf : s.presc = s.step_delay) : playTick fuel btn s = snakeStep fuel (stepInput btn s) := by
  have h1 : (!s.crashed) = true := by rw [hc]; rfl
  unfold playTick playTickWith
  simp only [h1, if_true]
  rw [if_pos hf]
  rfl

theorem playTick_waits {fuel : Nat} {btn : Buttons} {s : State} (hc : s.crashed = false)
    (hf : s.presc ≠ s.step_delay) : playTick fuel btn s = .ok (stepInput btn s) := by
  have h1 : (!s.crashed) = true := by rw [hc]; rfl
  unfold playTick playTickWith
  simp only [h1, if_true]
  rw [if_neg hf]
  rfl

theorem update_fires {fuel : Nat} {btn : Buttons} {s s1 : State}
    (hl : latchButtons fuel btn s = .ok s1) (hp : s1.paused = false) (hc : s1.crashed = false)
    (hf : s1.presc = s1.step_delay) :
    update fuel btn s = snakeStep fuel (stepInput btn s1) := by
  rw [update_of_latch hl, hp, playTick_fires hc hf]
  rfl

theorem snakeStep_wall {fuel : Nat} {s : State} (hw : HitsWall (advance s.head_dir s.head_pos)) :
    snakeStep fuel s = gameOver fuel (crashState s) := by
  unfold snakeStep snakeStepWith
  unfold HitsWall at hw
  simp only [hw, if_true]
  rfl

theorem read_not_wall {b : Board} {p : coord_t} {c : block_t} (h : b.read p.y p.x = .ok c) :
    ¬ HitsWall p := by
  obtain ⟨i, j, hi, hj, -⟩ := Board.read_ok h
  have := i.2
  have := j.2
  unfold HitsWall
  omega

theorem snakeStep_occupied {fuel : Nat} {s : State} {c : block_t}
    (hr : s.board.read (advance s.head_dir s.head_pos).y (advance s.head_dir s.head_pos).x = .ok c)
    (hc : c ≠ bEMPTY) : snakeStep fuel s = gameOver fuel (crashState s) := by
  have hw := read_not_wall hr
  unfold HitsWall at hw
  unfold snakeStep snakeStepWith
  simp only [hw, if_false, hr, hc, ne_eq, not_false_eq_true, if_true]
  rfl

theorem snakeStep_empty {fuel : Nat} {s : State}
    (hr : s.board.read (advance s.head_dir s.head_pos).y (advance s.head_dir s.head_pos).x
      = .ok bEMPTY) :
    snakeStep fuel s
      = moveSnake fuel s.head_pos
          { s with presc := 0, head_pos := advance s.head_dir s.head_pos } := by
  have hw := read_not_wall hr
  unfold HitsWall at hw
  unfold snakeStep snakeStepWith
  simp only [hw, if_false, hr, ne_eq, not_true_eq_false]

/-- What a returning `gameOver` leaves behind: a freshly initialised game, with
the score, the step interval, the prescaler and the latches as they were. -/
theorem gameOver_post {fuel : Nat} {s s' : State} (h : gameOver fuel s = .ok s') :
    s'.crashed = false ∧ FreshLayout s'.board ∧ s'.head_pos = { x := 3, y := 0 } ∧
      s'.tail_pos = { x := 0, y := 0 } ∧ s'.snake_len = 4 ∧ s'.head_dir = dRIGHT ∧
      s'.score = s.score ∧ s'.step_delay = s.step_delay ∧ s'.presc = s.presc ∧
      s'.paused = s.paused := by
  unfold gameOver at h
  obtain ⟨b, r, hb, hs⟩ := init_gameboard_ok h
  subst hs
  refine ⟨rfl, hb, rfl, rfl, rfl, rfl, ?_, ?_, ?_, ?_⟩ <;>
    · unfold saveHighScore
      split <;> rfl

theorem exists_ok {r : Except Fault State} (h : r.toOption.isSome = true) : ∃ s, r = .ok s := by
  cases r with
  | error e => simp [Except.toOption] at h
  | ok s => exact ⟨s, rfl⟩

theorem latch_idle {fuel : Nat} {s : State} (hr : s.restart_held = false)
    (hp : s.pause_held = false) : latchButtons fuel noButtons s = .ok s := by
  cases s
  simp only at hr hp
  subst hr hp
  rfl

theorem update_idle {fuel : Nat} {s : State} (hr : s.restart_held = false)
    (hph : s.pause_held = false) (hp : s.paused = false) (hc : s.crashed = false)
    (hne : s.presc ≠ s.step_delay) :
    update fuel noButtons s = .ok { s with presc := (s.presc + 1) % 256 } := by
  rw [update_of_latch (latch_idle hr hph), playTick_waits hc hne,
    if_neg (by rw [hp]; exact Bool.false_ne_true)]
  rfl

theorem run_idle (fuel n : Nat) (s : State) (hr : s.restart_held = false)
    (hph : s.pause_held = false) (hp : s.paused = false) (hc : s.crashed = false)
    (hn : s.presc + n ≤ s.step_delay) (hd : s.step_delay < 256) :
    run fuel (List.replicate n noButtons) s = .ok { s with presc := s.presc + n } := by
  induction n generalizing s with
  | zero => rfl
  | succ n ih =>
    have hne : s.presc ≠ s.step_delay := by omega
    have hm : (s.presc + 1) % 256 = s.presc + 1 := Nat.mod_eq_of_lt (by omega)
    rw [List.replicate_succ, run, update_idle hr hph hp hc hne]
    have e : s.presc + 1 + n = s.presc + (n + 1) := by omega
    simp only [hm]
    rw [ih { s with presc := s.presc + 1 } hr hph hp hc (by simp only; omega) hd]
    simp only [e]

theorem run_append (fuel : Nat) (l1 l2 : List Buttons) (s : State) :
    run fuel (l1 ++ l2) s =
      match run fuel l1 s with
      | .error e => .error e
      | .ok s1 => run fuel l2 s1 := by
  induction l1 generalizing s with
  | nil => rfl
  | cons b l1 ih =>
    simp only [List.cons_append, run]
    cases update fuel b s with
    | error e => rfl
    | ok s1 => exact ih s1

/-- The ordinary move of lines 283-294, when the head before and after the move
and the tail are cells of the board and the cell under the new head is empty. -/
theorem moveSnake_empty (fuel : Nat) (oldpos : coord_t) (s : State) (i io it : Fin ROWS)
    (j jo jt : Fin COLS)
    (hh : s.head_pos = { x := ((j : Nat) : Int), y := ((i : Nat) : Int) })
    (ho : oldpos = { x := ((jo : Nat) : Int), y := ((io : Nat) : Int) })
    (ht : s.tail_pos = { x := ((jt : Nat) : Int), y := ((it : Nat) : Int) })
    (he : s.board i j = bEMPTY) :
    moveSnake fuel oldpos s =
      .ok { s with
        board := (s.board.set io jo (bodyOf s.head_dir)).set it jt bEMPTY
        tail_pos := retract (s.board.set io jo (bodyOf s.head_dir) it jt) s.tail_pos } := by
  unfold moveSnake
  rw [hh, ho, ht]
  simp only [Board.read_cell, Board.write_cell, he]
  rfl

theorem exists_ok_obs {α : Type} {r : Except Fault State} {f : State → α} {v : α}
    (h : r.toOption.map f = some v) : ∃ s, r = .ok s ∧ f s = v := by
  cases r with
  | error e => simp [Except.toOption] at h
  | ok s => exact ⟨s, rfl, by simpa [Except.toOption] using h⟩

/-- What a returning `boot` leaves behind. -/
theorem boot_ok {fuel : Nat} {rnd : Nat → Nat} {hs : Nat} {s0 : State}
    (h : boot fuel rnd hs = .ok s0) :
    ∃ b r, FreshLayout b ∧
      s0 = { zeroState rnd with
        tail_pos := { x := 0, y := 0 }
        board := b
        head_pos := { x := 3, y := 0 }
        snake_len := 4
        head_dir := dRIGHT
        crashed := false
        rnd := r
        highScore := hs } := by
  unfold boot at h
  split at h
  · simp at h
  · rename_i s hi
    obtain ⟨b, r, hb, hs'⟩ := init_gameboard_ok hi
    simp only [Except.ok.injEq] at h
    refine ⟨b, r, hb, ?_⟩
    rw [← h, hs']

/-- The latch phase on a restart edge: the game is re-initialised, the prescaler
cleared and the pause latch run on the result. -/
theorem latch_restart {fuel : Nat} {btn : Buttons} {s s1 : State} (hr : btn.restart = true)
    (hh : s.restart_held = false) (h : latchButtons fuel btn s = .ok s1) :
    ∃ s0, init_gameboard fuel s = .ok s0 ∧
      s1.board = s0.board ∧ s1.head_pos = s0.head_pos ∧ s1.tail_pos = s0.tail_pos ∧
      s1.snake_len = s0.snake_len ∧ s1.head_dir = s0.head_dir ∧ s1.crashed = s0.crashed ∧
      s1.score = s0.score ∧ s1.step_delay = s0.step_delay ∧ s1.presc = 0 ∧
      s1.restart_held = true := by
  unfold latchButtons at h
  simp only [hr, hh, if_true, Bool.not_false] at h
  cases hi : init_gameboard fuel s with
  | error e =>
    rw [hi] at h
    simp at h
  | ok s0 =>
    rw [hi] at h
    refine ⟨s0, rfl, ?_⟩
    simp only at h
    split at h
    · split at h <;>
        · simp only [Except.ok.injEq] at h
          subst h
          simp
    · simp only [Except.ok.injEq] at h
      subst h
      simp

/-- The ordinary move as a whole call of `update`: when a step fires, the old
head, the cell ahead and the tail are cells of the board and the cell ahead is
empty, the old head cell gets the body value of the heading, the tail cell is
cleared and the tail follows the direction it held. The cell under the new head
is not written. -/
theorem update_move (fuel : Nat) (btn : Buttons) (s s1 : State) (i io it : Fin ROWS)
    (j jo jt : Fin COLS) (hl : latchButtons fuel btn s = .ok s1) (hp : s1.paused = false)
    (hc : s1.crashed = false) (hf : s1.presc = s1.step_delay)
    (ho : s1.head_pos = { x := ((jo : Nat) : Int), y := ((io : Nat) : Int) })
    (hh : advance (steer btn s1.head_dir) s1.head_pos
      = { x := ((j : Nat) : Int), y := ((i : Nat) : Int) })
    (ht : s1.tail_pos = { x := ((jt : Nat) : Int), y := ((it : Nat) : Int) })
    (he : s1.board i j = bEMPTY) :
    update fuel btn s =
      .ok { s1 with
        head_dir := steer btn s1.head_dir
        presc := 0
        head_pos := advance (steer btn s1.head_dir) s1.head_pos
        board := (s1.board.set io jo (bodyOf (steer btn s1.head_dir))).set it jt bEMPTY
        tail_pos := retract (s1.board.set io jo (bodyOf (steer btn s1.head_dir)) it jt)
          s1.tail_pos } := by
  have hread : (stepInput btn s1).board.read
      (advance (stepInput btn s1).head_dir (stepInput btn s1).head_pos).y
      (advance (stepInput btn s1).head_dir (stepInput btn s1).head_pos).x = .ok bEMPTY := by
    show s1.board.read (advance (steer btn s1.head_dir) s1.head_pos).y
      (advance (steer btn s1.head_dir) s1.head_pos).x = _
    rw [hh, Board.read_cell, he]
  rw [update_fires hl hp hc hf, snakeStep_empty hread]
  exact moveSnake_empty fuel _ _ i io it j jo jt hh ho ht he

/-- The state `readyState` used in the witnesses is the game 24 idle calls after
startup with all draws 9 (up to the random stream). -/
theorem readyState_reached :
    ((boot 1 rndNine 0 >>= run 1 (List.replicate 24 noButtons)).toOption.map fun s =>
        decide (s.crashed = readyState.crashed ∧ s.snake_len = readyState.snake_len ∧
          s.score = readyState.score ∧ s.highScore = readyState.highScore ∧
          (∀ i j, s.board i j = readyState.board i j) ∧ s.head_pos = readyState.head_pos ∧
          s.tail_pos = readyState.tail_pos ∧ s.head_dir = readyState.head_dir ∧
          s.restart_held = readyState.restart_held ∧ s.pause_held = readyState.pause_held ∧
          s.paused = readyState.paused ∧ s.presc = readyState.presc ∧
          s.step_delay = readyState.step_delay)) = some true := by
  decide!

theorem latchButtons_eq (fuel : Nat) (btn : Buttons) (s : State) :
    latchButtons fuel btn s =
      if btn.restart = true ∧ s.restart_held = false then
        match init_gameboard fuel s with
        | .error e => .error e
        | .ok t => .ok (pauseLatch btn { t with presc := 0, restart_held := true })
      else .ok (pauseLatch btn { s with restart_held := btn.restart }) := by
  obtain ⟨l, r, u, d, p, rs⟩ := btn
  obtain ⟨cr, len, sc, hsc, b, hd, tl, dir, rh, ph, pa, pr, sd, rn⟩ := s
  cases rs <;> cases rh <;> cases p <;> cases ph <;>
    first
    | rfl
    | (simp only [latchButtons, pauseLatch]
       cases init_gameboard fuel _ with
       | error e => rfl
       | ok t => cases hq : t.pause_held <;> simp [hq])

theorem pauseLatch_fields (btn : Buttons) (s : State) :
    (pauseLatch btn s).paused = xor s.paused (btn.pause && !s.pause_held) ∧
    (pauseLatch btn s).pause_held = btn.pause ∧
    (pauseLatch btn s).restart_held = s.restart_held ∧
    (pauseLatch btn s).board = s.board ∧ (pauseLatch btn s).head_pos = s.head_pos ∧
    (pauseLatch btn s).tail_pos = s.tail_pos ∧ (pauseLatch btn s).head_dir = s.head_dir ∧
    (pauseLatch btn s).snake_len = s.snake_len ∧ (pauseLatch btn s).score = s.score ∧
    (pauseLatch btn s).crashed = s.crashed ∧ (pauseLatch btn s).presc = s.presc ∧
    (pauseLatch btn s).step_delay = s.step_delay ∧ (pauseLatch btn s).rnd = s.rnd ∧
    (pauseLatch btn s).highScore = s.highScore := by
  unfold pauseLatch
  cases hp : btn.pause <;> cases hh : s.pause_held <;> simp [hh]

theorem saveHighScore_fields (s : State) :
    (saveHighScore s).score = s.score ∧ (saveHighScore s).step_delay = s.step_delay ∧
    (saveHighScore s).paused = s.paused ∧ (saveHighScore s).pause_held = s.pause_held ∧
    (saveHighScore s).restart_held = s.restart_held ∧ (saveHighScore s).presc = s.presc ∧
    (saveHighScore s).rnd = s.rnd ∧ (saveHighScore s).board = s.board := by
  unfold saveHighScore
  split <;> exact ⟨rfl, rfl, rfl, rfl, rfl, rfl, rfl, rfl⟩

/-- The fields that `init_gameboard` does not assign. -/
theorem init_gameboard_frame {fuel : Nat} {s s' : State} (h : init_gameboard fuel s = .ok s') :
    s'.score = s.score ∧ s'.step_delay = s.step_delay ∧ s'.paused = s.paused ∧
    s'.pause_held = s.pause_held ∧ s'.restart_held = s.restart_held ∧ s'.presc = s.presc ∧
    s'.highScore = s.highScore := by
  obtain ⟨b, r, -, hs⟩ := init_gameboard_ok h
  subst hs
  exact ⟨rfl, rfl, rfl, rfl, rfl, rfl, rfl⟩

/-- The fields that `gameOver` leaves alone. -/
theorem gameOver_frame {fuel : Nat} {s s' : State} (h : gameOver fuel s = .ok s') :
    s'.score = s.score ∧ s'.step_delay = s.step_delay ∧ s'.paused = s.paused ∧
    s'.pause_held = s.pause_held ∧ s'.restart_held = s.restart_held ∧ s'.presc = s.presc := by
  unfold gameOver at h
  obtain ⟨h1, h2, h3, h4, h5, h6, -⟩ := init_gameboard_frame h
  obtain ⟨g1, g2, g3, g4, g5, g6, -, -⟩ := saveHighScore_fields s
  exact ⟨h1.trans g1, h2.trans g2, h3.trans g3, h4.trans g4, h5.trans g5, h6.trans g6⟩

/-- The branch of `moveSnake` taken when the cell under the new head is empty
only writes the board and the tail coordinate. -/
theorem moveSnake_of_empty {fuel : Nat} {oldpos : coord_t} {s s' : State}
    (hr : s.board.read s.head_pos.y s.head_pos.x = .ok bEMPTY)
    (h : moveSnake fuel oldpos s = .ok s') :
    ∃ b t, s' = { s with board := b, tail_pos := t } := by
  unfold moveSnake at h
  rw [hr] at h
  simp only [show (bEMPTY = bFOOD) = False from by simp, if_false] at h
  split at h
  · simp at h
  · split at h
    · simp at h
    · split at h
      · simp at h
      · simp only [Except.ok.injEq] at h
        exact ⟨_, _, h.symm⟩

/-- The two ways in which a snake step returns: through `gameOver` on a
collision, or by the ordinary move, which writes the board and the tail. -/
theorem snakeStep_cases {fuel : Nat} {s s' : State} (h : snakeStep fuel s = .ok s') :
    gameOver fuel (crashState s) = .ok s' ∨
    ∃ b t, s' = { s with
      presc := 0, head_pos := advance s.head_dir s.head_pos, board := b, tail_pos := t } := by
  by_cases hw : HitsWall (advance s.head_dir s.head_pos)
  · rw [snakeStep_wall hw] at h
    exact Or.inl h
  · cases hr : s.board.read (advance s.head_dir s.head_pos).y (advance s.head_dir s.head_pos).x with
    | error e =>
      unfold snakeStep snakeStepWith at h
      unfold HitsWall at hw
      simp only [hw, if_false, hr] at h
      simp at h
    | ok c =>
      by_cases hc : c = bEMPTY
      · subst hc
        rw [snakeStep_empty hr] at h
        obtain ⟨b, t, hs⟩ := moveSnake_of_empty (by exact hr) h
        exact Or.inr ⟨b, t, hs⟩
      · rw [snakeStep_occupied hr hc] at h
        exact Or.inl h

/-- The latch phase: the score and the step interval are kept, the latches follow
the buttons, and the game is not crashed afterwards if it was not before. -/
theorem latch_frame {fuel : Nat} {btn : Buttons} {s s1 : State}
    (h : latchButtons fuel btn s = .ok s1) :
    s1.score = s.score ∧ s1.step_delay = s.step_delay ∧
    s1.paused = xor s.paused (btn.pause && !s.pause_held) ∧
    s1.pause_held = btn.pause ∧ s1.restart_held = btn.restart ∧
    (s.crashed = false → s1.crashed = false) := by
  rw [latchButtons_eq] at h
  split at h
  · rename_i he
    split at h
    · simp at h
    · rename_i t ht
      simp only [Except.ok.injEq] at h
      obtain ⟨b, r, -, hs⟩ := init_gameboard_ok ht
      obtain ⟨p1, p2, p3, -, -, -, -, -, p9, p10, -, p12, -, -⟩ :=
        pauseLatch_fields btn { t with presc := 0, restart_held := true }
      rw [← h, p1, p2, p3, p9, p10, p12, hs, he.1]
      exact ⟨rfl, rfl, rfl, rfl, rfl, fun _ => rfl⟩
  · simp only [Except.ok.injEq] at h
    obtain ⟨p1, p2, p3, -, -, -, -, -, p9, p10, -, p12, -, -⟩ :=
      pauseLatch_fields btn { s with restart_held := btn.restart }
    rw [← h, p1, p2, p3, p9, p10, p12]
    exact ⟨rfl, rfl, rfl, rfl, rfl, fun hc => hc⟩

/-- The latch phase without a restart edge returns and keeps the board, the
snake, the prescaler and the random stream. -/
theorem latch_noEdge (fuel : Nat) (btn : Buttons) (s : State)
    (hr : btn.restart = false ∨ s.restart_held = true) :
    ∃ s1, latchButtons fuel btn s = .ok s1 ∧ s1.board = s.board ∧ s1.head_pos = s.head_pos ∧
      s1.tail_pos = s.tail_pos ∧ s1.head_dir = s.head_dir ∧ s1.snake_len = s.snake_len ∧
      s1.crashed = s.crashed ∧ s1.presc = s.presc ∧ s1.rnd = s.rnd := by
  have hne : ¬ (btn.restart = true ∧ s.restart_held = false) := by
    rcases hr with hr | hr <;> simp [hr]
  rw [latchButtons_eq, if_neg hne]
  obtain ⟨-, -, -, p4, p5, p6, p7, p8, -, p10, p11, -, p13, -⟩ :=
    pauseLatch_fields btn { s with restart_held := btn.restart }
  exact ⟨_, rfl, p4, p5, p6, p7, p8, p10, p11, p13⟩

/-- The play phase keeps the score, the step interval and the latches, and a
game that is not crashed stays so. -/
theorem playTick_frame {fuel : Nat} {btn : Buttons} {s s' : State}
    (h : playTick fuel btn s = .ok s') :
    s'.score = s.score ∧ s'.step_delay = s.step_delay ∧ s'.paused = s.paused ∧
    s'.pause_held = s.pause_held ∧ s'.restart_held = s.restart_held ∧
    (s.crashed = false → s'.crashed = false) := by
  cases hc : s.crashed with
  | true =>
    unfold playTick playTickWith at h
    simp only [hc, Bool.not_true, Bool.false_eq_true, if_false, Except.ok.injEq] at h
    subst h
    exact ⟨rfl, rfl, rfl, rfl, rfl, fun e => by simp at e⟩
  | false =>
    by_cases hf : s.presc = s.step_delay
    · rw [playTick_fires hc hf] at h
      rcases snakeStep_cases h with hg | ⟨b, t, hs⟩
      · obtain ⟨g1, g2, g3, g4, g5, -⟩ := gameOver_frame hg
        obtain ⟨q, -⟩ := gameOver_post hg
        exact ⟨g1, g2, g3, g4, g5, fun _ => q⟩
      · subst hs
        exact ⟨rfl, rfl, rfl, rfl, rfl, fun _ => hc⟩
    · rw [playTick_waits hc hf] at h
      simp only [Except.ok.injEq] at h
      subst h
      exact ⟨rfl, rfl, rfl, rfl, rfl, fun _ => hc⟩

/-- What every returning call of `update` preserves or sets: the score and the
step interval are never changed, the latches follow the buttons, and a game
that is not crashed stays so. -/
theorem update_frame {fuel : Nat} {btn : Buttons} {s s' : State}
    (h : update fuel btn s = .ok s') :
    s'.score = s.score ∧ s'.step_delay = s.step_delay ∧
    s'.paused = xor s.paused (btn.pause && !s.pause_held) ∧
    s'.pause_held = btn.pause ∧ s'.restart_held = btn.restart ∧
    (s.crashed = false → s'.crashed = false) := by
  cases hl : latchButtons fuel btn s with
  | error e =>
    unfold update updateWith at h
    rw [hl] at h
    simp at h
  | ok s1 =>
    obtain ⟨l1, l2, l3, l4, l5, l6⟩ := latch_frame hl
    rw [update_of_latch hl] at h
    split at h
    · simp only [Except.ok.injEq] at h
      subst h
      exact ⟨l1, l2, l3, l4, l5, l6⟩
    · obtain ⟨p1, p2, p3, p4, p5, p6⟩ := playTick_frame h
      exact ⟨p1.trans l1, p2.trans l2, p3.trans l3, p4.trans l4, p5.trans l5,
        fun hc => p6 (l6 hc)⟩

theorem adjustSpeed_step_delay (s : State) :
    (adjustSpeed s).step_delay =
      if s.score % 50 = 0 ∧ 10 < s.step_delay then s.step_delay - 1 else s.step_delay := by
  unfold adjustSpeed
  split <;> rfl

theorem adjustCalls_bounds (scores : List Nat) (s : State) :
    (adjustCalls scores s).step_delay ≤ s.step_delay ∧
    (10 ≤ s.step_delay → 10 ≤ (adjustCalls scores s).step_delay) := by
  induction scores generalizing s with
  | nil => exact ⟨le_refl _, fun h => h⟩
  | cons sc rest ih =>
    have h1 := adjustSpeed_step_delay { s with score := sc }
    have h2 := ih (adjustSpeed { s with score := sc })
    simp only [adjustCalls, List.foldl_cons] at h2 ⊢
    simp only at h1
    split at h1 <;> constructor <;> intros <;> omega

theorem adjustCalls_append (l1 l2 : List Nat) (s : State) :
    adjustCalls (l1 ++ l2) s = adjustCalls l2 (adjustCalls l1 s) := by
  simp [adjustCalls, List.foldl_append]

/-- A run of calls with the pause button asserted throughout: the pause latch
is set after it, and `paused` has been toggled on the first call only if the
latch was clear when the run began. -/
theorem run_pause_held (fuel : Nat) (b : Buttons) (rest : List Buttons) (s s' : State)
    (hall : ∀ x ∈ b :: rest, x.pause = true) (h : run fuel (b :: rest) s = .ok s') :
    s'.paused = xor s.paused (!s.pause_held) ∧ s'.pause_held = true := by
  induction rest generalizing b s with
  | nil =>
    simp only [run] at h
    cases hu : update fuel b s with
    | error e => rw [hu] at h; simp at h
    | ok s1 =>
      rw [hu] at h
      simp only [Except.ok.injEq] at h
      subst h
      obtain ⟨-, -, f3, f4, -, -⟩ := update_frame hu
      rw [f3, f4, hall b (by simp)]
      simp
  | cons b2 rest ih =>
    rw [run] at h
    cases hu : update fuel b s with
    | error e => rw [hu] at h; simp at h
    | ok s1 =>
      rw [hu] at h
      simp only at h
      obtain ⟨-, -, f3, f4, -, -⟩ := update_frame hu
      obtain ⟨i1, i2⟩ := ih b2 s1 (fun x hx => hall x (List.mem_cons_of_mem _ hx)) h
      rw [i1, i2, f3, f4, hall b (by simp)]
      simp

/-- After a run of calls whose last call has the restart button asserted the
restart latch is set. -/
theorem run_restart_held (fuel : Nat) (btns : List Buttons) (s s' : State) (hne : btns ≠ [])
    (hall : ∀ x ∈ btns, x.restart = true) (h : run fuel btns s = .ok s') :
    s'.restart_held = true := by
  induction btns generalizing s with
  | nil => exact absurd rfl hne
  | cons b rest ih =>
    rw [run] at h
    cases hu : update fuel b s with
    | error e => rw [hu] at h; simp at h
    | ok s1 =>
      rw [hu] at h
      simp only at h
      cases rest with
      | nil =>
        simp only [run, Except.ok.injEq] at h
        subst h
        rw [(update_frame hu).2.2.2.2.1]
        exact hall b (by simp)
      | cons b2 rest2 =>
        exact ih s1 (by simp) (fun x hx => hall x (List.mem_cons_of_mem _ hx)) h

theorem roundCell_zero (s : State) : roundCell s 0 = (drawRow s, drawCol s) := rfl

theorem roundCell_afterDraw (s : State) (k : Nat) :
    roundCell (afterDraw s) k = roundCell s (k + 1) := by
  have e1 : 2 * k + 1 + 2 = 2 * (k + 1) + 1 := by omega
  have e2 : 2 * k + 2 = 2 * (k + 1) := by omega
  simp only [roundCell, afterDraw, e1, e2]

/-- The loop of `place_food` returns within `fuel` rounds exactly when one of
the first `fuel` rounds draws an empty cell. -/
theorem place_food_ok_iff (fuel : Nat) (s : State) :
    (∃ s', place_food fuel s = .ok s') ↔
      ∃ k, k < fuel ∧ s.board (roundCell s k).1 (roundCell s k).2 = bEMPTY := by
  induction fuel generalizing s with
  | zero => simp [place_food]
  | succ fuel ih =>
    rw [place_food_succ]
    by_cases he : s.board (drawRow s) (drawCol s) = bEMPTY
    · rw [if_pos he]
      exact ⟨fun _ => ⟨0, by omega, he⟩, fun _ => ⟨_, rfl⟩⟩
    · rw [if_neg he, ih (afterDraw s)]
      constructor
      · rintro ⟨k, hk, hc⟩
        rw [roundCell_afterDraw] at hc
        exact ⟨k + 1, by omega, hc⟩
      · rintro ⟨k, hk, hc⟩
        cases k with
        | zero => exact absurd hc he
        | succ k =>
          refine ⟨k, by omega, ?_⟩
          rw [roundCell_afterDraw]
          exact hc

theorem place_food_outOfFuel (fuel : Nat) (s : State)
    (h : ∀ k, k < fuel → s.board (roundCell s k).1 (roundCell s k).2 ≠ bEMPTY) :
    place_food fuel s = .error Fault.outOfFuel := by
  cases hp : place_food fuel s with
  | ok s' =>
    obtain ⟨k, hk, hc⟩ := (place_food_ok_iff fuel s).1 ⟨s', hp⟩
    exact absurd hc (h k hk)
  | error e =>
    cases e with
    | outOfFuel => rfl
    | outOfBounds => exact absurd hp (place_food_inBounds fuel s)

/-- The rounds of `place_food` read only the board and the random stream: on two
states that agree on both, the loop behaves alike. -/
theorem place_food_congr (fuel : Nat) (s s2 : State) (hb : s2.board = s.board)
    (hr : s2.rnd = s.rnd) :
    place_food fuel s2 =
      match place_food fuel s with
      | .ok t => .ok { s2 with board := t.board, rnd := t.rnd }
      | .error e => .error e := by
  induction fuel generalizing s s2 with
  | zero => rfl
  | succ fuel ih =>
    have hrow : drawRow s2 = drawRow s := by simp only [drawRow, hr]
    have hcol : drawCol s2 = drawCol s := by simp only [drawCol, hr]
    rw [place_food_succ, place_food_succ, hrow, hcol, hb]
    by_cases he : s.board (drawRow s) (drawCol s) = bEMPTY
    · rw [if_pos he, if_pos he]
      simp only [afterDraw, hr]
    · rw [if_neg he, if_neg he]
      exact ih (afterDraw s) (afterDraw s2) hb (by simp only [afterDraw, hr])

theorem obstacleRound_congr (s s2 t : State) (hb : s2.board = s.board) (hr : s2.rnd = s.rnd)
    (h : obstacleRound s = .ok t) :
    obstacleRound s2 = .ok { s2 with board := t.board, rnd := t.rnd } := by
  have hrow : drawRow s2 = drawRow s := by simp only [drawRow, hr]
  have hcol : drawCol s2 = drawCol s := by simp only [drawCol, hr]
  rw [obstacleRound_eq] at h ⊢
  rw [hrow, hcol, hb]
  simp only [Except.ok.injEq] at h
  subst h
  by_cases he : s.board (drawRow s) (drawCol s) = bEMPTY
  · simp only [if_pos he, afterDraw, hr]
  · simp only [if_neg he, afterDraw, hr, hb]

theorem placeObstacles_congr (n : Nat) (s s2 t : State) (hb : s2.board = s.board)
    (hr : s2.rnd = s.rnd) (h : placeObstacles n s = .ok t) :
    placeObstacles n s2 = .ok { s2 with board := t.board, rnd := t.rnd } := by
  induction n generalizing t with
  | zero =>
    simp only [placeObstacles, Except.ok.injEq] at h ⊢
    subst h
    cases s2
    simp only at hb hr
    subst hb hr
    rfl
  | succ n ih =>
    simp only [placeObstacles] at h ⊢
    cases hu : placeObstacles n s with
    | error e => rw [hu] at h; simp at h
    | ok u =>
      rw [hu] at h
      rw [ih u hu]
      exact obstacleRound_congr u { s2 with board := u.board, rnd := u.rnd } t rfl rfl h

/-- A run of `init_gameboard` reads nothing of the prior state but the random
stream: from another state with the same stream it returns as well, with the
same board, snake and remaining stream, and the other fields of that state. -/
theorem init_gameboard_congr (fuel : Nat) (s s2 t : State) (hr : s2.rnd = s.rnd)
    (h : init_gameboard fuel s = .ok t) :
    init_gameboard fuel s2 =
      .ok { s2 with
        tail_pos := t.tail_pos
        board := t.board
        head_pos := t.head_pos
        snake_len := t.snake_len
        head_dir := t.head_dir
        crashed := t.crashed
        rnd := t.rnd } := by
  unfold init_gameboard at h ⊢
  simp only [clearBoard_eq] at h ⊢
  split at h
  · simp at h
  · rename_i u hu
    have hpf := place_food_congr fuel
      { s with
        tail_pos := { x := 0, y := 0 }
        board := startBoard
        head_pos := { x := 3, y := 0 }
        snake_len := 4
        head_dir := dRIGHT
        crashed := false }
      { s2 with
        tail_pos := { x := 0, y := 0 }
        board := startBoard
        head_pos := { x := 3, y := 0 }
        snake_len := 4
        head_dir := dRIGHT
        crashed := false } rfl hr
    have hu2 : place_food fuel
      { s with
        tail_pos := { x := 0, y := 0 }
        board := startBoard
        head_pos := { x := 3, y := 0 }
        snake_len := 4
        head_dir := dRIGHT
        crashed := false } = .ok u := hu
    rw [hu2] at hpf
    simp only at hpf
    obtain ⟨i, j, r, -, hs⟩ := place_food_ok hu
    have hpo := placeObstacles_congr 5 u
      { s2 with
        tail_pos := { x := 0, y := 0 }
        board := u.board
        head_pos := { x := 3, y := 0 }
        snake_len := 4
        head_dir := dRIGHT
        crashed := false
        rnd := u.rnd } t rfl rfl h
    obtain ⟨b, r2, h5, -⟩ := placeObstacles_ok block_t.isObstacle rfl 5 u
    rw [h5] at h
    simp only [Except.ok.injEq] at h
    subst h
    subst hs
    exact (congrArg (fun x : Except Fault State => match x with
      | Except.error e => (Except.error e : Except Fault State)
      | Except.ok v => placeObstacles 5 v) hpf).trans hpo

theorem coordOf_inj {c c' : Fin ROWS × Fin COLS} (h : coordOf c = coordOf c') : c = c' := by
  obtain ⟨⟨i, hi⟩, ⟨j, hj⟩⟩ := c
  obtain ⟨⟨i', hi'⟩, ⟨j', hj'⟩⟩ := c'
  simp only [coordOf, coord_t.mk.injEq, Nat.cast_inj] at h
  obtain ⟨h1, h2⟩ := h
  subst h1 h2
  rfl

theorem read_coordOf (b : Board) (c : Fin ROWS × Fin COLS) :
    b.read (coordOf c).y (coordOf c).x = .ok (b.cell c) :=
  Board.read_cell b c.1 c.2

theorem cell_set_same (b : Board) (c : Fin ROWS × Fin COLS) (v : block_t) :
    (b.set c.1 c.2 v).cell c = v :=
  Board.set_same b c.1 c.2 v

theorem cell_set_ne (b : Board) {c c' : Fin ROWS × Fin COLS} (v : block_t) (h : c' ≠ c) :
    (b.set c.1 c.2 v).cell c' = b.cell c' :=
  Board.set_other b c.1 c'.1 c.2 c'.2 v (fun e => h (Prod.ext e.1 e.2))

theorem retract_bodyOf (d : dir_t) (p : coord_t) : retract (bodyOf d) p = advance d p := by
  cases d <;> rfl

theorem isBody_bodyOf (d : dir_t) : (bodyOf d).isBody = true := by
  cases d <;> rfl

/-- One step from a cell of the board either leaves the board through a wall
or lands on another cell of the board. -/
theorem advance_from_cell (d : dir_t) (c : Fin ROWS × Fin COLS) :
    HitsWall (advance d (coordOf c)) ∨
      ∃ c' : Fin ROWS × Fin COLS, advance d (coordOf c) = coordOf c' ∧ c' ≠ c := by
  obtain ⟨⟨i, hi⟩, ⟨j, hj⟩⟩ := c
  have hi4 : i < 4 := hi
  have hj20 : j < 20 := hj
  cases d
  · by_cases h0 : j = 0
    · left
      subst h0
      simp [HitsWall, advance, coordOf, wrap8]
    · right
      refine ⟨(⟨i, hi⟩, ⟨j - 1, by show j - 1 < 20; omega⟩), ?_, ?_⟩
      · simp only [advance, coordOf, wrap8, coord_t.mk.injEq, and_true]
        omega
      · intro e
        simp only [Prod.mk.injEq, Fin.mk.injEq, true_and] at e
        omega
  · by_cases h0 : j = 19
    · left
      subst h0
      simp [HitsWall, advance, coordOf, wrap8]
    · right
      refine ⟨(⟨i, hi⟩, ⟨j + 1, by show j + 1 < 20; omega⟩), ?_, ?_⟩
      · simp only [advance, coordOf, wrap8, coord_t.mk.injEq, and_true]
        omega
      · intro e
        simp only [Prod.mk.injEq, Fin.mk.injEq, true_and] at e
        omega
  · by_cases h0 : i = 0
    · left
      subst h0
      simp [HitsWall, advance, coordOf, wrap8]
    · right
      refine ⟨(⟨i - 1, by show i - 1 < 4; omega⟩, ⟨j, hj⟩), ?_, ?_⟩
      · simp only [advance, coordOf, wrap8, coord_t.mk.injEq, true_and]
        omega
      · intro e
        simp only [Prod.mk.injEq, Fin.mk.injEq, and_true] at e
        omega
  · by_cases h0 : i = 3
    · left
      subst h0
      simp [HitsWall, advance, coordOf, wrap8]
    · right
      refine ⟨(⟨i + 1, by show i + 1 < 4; omega⟩, ⟨j, hj⟩), ?_, ?_⟩
      · simp only [advance, coordOf, wrap8, coord_t.mk.injEq, true_and]
        omega
      · intro e
        simp only [Prod.mk.injEq, Fin.mk.injEq, and_true] at e
        omega

theorem not_body_of_head_or_empty {c : block_t} (h : c = bHEAD ∨ c = bEMPTY) :
    c.isBody = false := by
  rcases h with h | h <;> rw [h] <;> rfl

/-- A freshly initialised board carries the snake chain from (0,0) to (3,0). -/
theorem chain_of_fresh {b : Board} (hf : FreshLayout b) :
    Chain b { x := 0, y := 0 } { x := 3, y := 0 } := by
  obtain ⟨h0, h1, h2, h3, hoff, -, -⟩ := hf
  have on_snake : ∀ c : Fin ROWS × Fin COLS, (c.1 = 0 ∧ c.2.val ≤ 3) →
      c = (0, 0) ∨ c = (0, 1) ∨ c = (0, 2) ∨ c = (0, 3) := by
    decide
  refine ⟨(0, 0), (0, 1), (0, 2), (0, 3), rfl, rfl, ?_, ?_, ?_, ?_, ?_, ?_, Or.inl h3,
    by decide, by decide, by decide, ?_, ?_⟩
  · show (b 0 0).isBody = true
    rw [h0]; rfl
  · show (b 0 1).isBody = true
    rw [h1]; rfl
  · show (b 0 2).isBody = true
    rw [h2]; rfl
  · show retract (b 0 0) _ = _
    rw [h0]; decide
  · show retract (b 0 1) _ = _
    rw [h1]; decide
  · show retract (b 0 2) _ = _
    rw [h2]; decide
  · intro c hc
    by_cases hs : c.1 = 0 ∧ c.2.val ≤ 3
    · rcases on_snake c hs with e | e | e | e
      · exact Or.inl e
      · exact Or.inr (Or.inl e)
      · exact Or.inr (Or.inr e)
      · subst e
        have : (b 0 3).isBody = true := hc
        rw [h3] at this
        exact absurd this (by decide)
    · have : (b c.1 c.2).isBody = true := hc
      rcases hoff c.1 c.2 hs with e | e | e <;> rw [e] at this <;> exact absurd this (by decide)
  · intro c hc
    have hc' : b c.1 c.2 = bHEAD := hc
    by_cases hs : c.1 = 0 ∧ c.2.val ≤ 3
    · rcases on_snake c hs with e | e | e | e
      · subst e
        rw [h0] at hc'
        exact absurd hc' (by decide)
      · subst e
        rw [h1] at hc'
        exact absurd hc' (by decide)
      · subst e
        rw [h2] at hc'
        exact absurd hc' (by decide)
      · exact e
    · rcases hoff c.1 c.2 hs with e | e | e <;> rw [e] at hc' <;> exact absurd hc' (by decide)

theorem cell_set_set (b : Board) {c c0 c3 : Fin ROWS × Fin COLS} (v w : block_t)
    (h0 : c ≠ c0) (h3 : c ≠ c3) :
    ((b.set c3.1 c3.2 v).set c0.1 c0.2 w).cell c = b.cell c := by
  rw [cell_set_ne _ _ h0, cell_set_ne _ _ h3]

/-- The ordinary move keeps the snake chain: the old head becomes the last body
cell, the cell ahead the new head cell, and the tail moves up one link. -/
theorem chain_move {b : Board} {c0 c1 c2 c3 n : Fin ROWS × Fin COLS} {d : dir_t}
    (hb0 : (b.cell c0).isBody = true) (hb1 : (b.cell c1).isBody = true)
    (hb2 : (b.cell c2).isBody = true)
    (hr0 : retract (b.cell c0) (coordOf c0) = coordOf c1)
    (hr1 : retract (b.cell c1) (coordOf c1) = coordOf c2)
    (hr2 : retract (b.cell c2) (coordOf c2) = coordOf c3)
    (hh : b.cell c3 = bHEAD ∨ b.cell c3 = bEMPTY)
    (h01 : c0 ≠ c1) (h02 : c0 ≠ c2) (h12 : c1 ≠ c2)
    (hbody : ∀ c, (b.cell c).isBody = true → c = c0 ∨ c = c1 ∨ c = c2)
    (hhead : ∀ c, b.cell c = bHEAD → c = c3)
    (hadv : advance d (coordOf c3) = coordOf n) (hn3 : n ≠ c3) (hne : b.cell n = bEMPTY) :
    Chain ((b.set c3.1 c3.2 (bodyOf d)).set c0.1 c0.2 bEMPTY)
      (retract ((b.set c3.1 c3.2 (bodyOf d)).cell c0) (coordOf c0)) (coordOf n) := by
  have hnb3 := not_body_of_head_or_empty hh
  have h03 : c0 ≠ c3 := fun e => by rw [e, hnb3] at hb0; exact absurd hb0 (by decide)
  have h13 : c1 ≠ c3 := fun e => by rw [e, hnb3] at hb1; exact absurd hb1 (by decide)
  have h23 : c2 ≠ c3 := fun e => by rw [e, hnb3] at hb2; exact absurd hb2 (by decide)
  have hnn : (b.cell n).isBody = false := by rw [hne]; rfl
  have hn0 : n ≠ c0 := fun e => by rw [e, hb0] at hnn; exact absurd hnn (by decide)
  refine ⟨c1, c2, c3, n, ?_, rfl, ?_, ?_, ?_, ?_, ?_, ?_, ?_, h12, h13, h23, ?_, ?_⟩
  · rw [cell_set_ne _ _ h03, hr0]
  · rw [cell_set_set b _ _ h01.symm h13]
    exact hb1
  · rw [cell_set_set b _ _ h02.symm h23]
    exact hb2
  · rw [cell_set_ne _ _ h03.symm, cell_set_same]
    exact isBody_bodyOf d
  · rw [cell_set_set b _ _ h01.symm h13]
    exact hr1
  · rw [cell_set_set b _ _ h02.symm h23]
    exact hr2
  · rw [cell_set_ne _ _ h03.symm, cell_set_same, retract_bodyOf]
    exact hadv
  · right
    rw [cell_set_set b _ _ hn0 hn3]
    exact hne
  · intro c hc
    by_cases e0 : c = c0
    · rw [e0, cell_set_same] at hc
      exact absurd hc (by decide)
    · by_cases e3 : c = c3
      · exact Or.inr (Or.inr e3)
      · rw [cell_set_set b _ _ e0 e3] at hc
        rcases hbody c hc with e | e | e
        · exact absurd e e0
        · exact Or.inl e
        · exact Or.inr (Or.inl e)
  · intro c hc
    by_cases e0 : c = c0
    · rw [e0, cell_set_same] at hc
      exact absurd hc (by decide)
    · by_cases e3 : c = c3
      · rw [e3, cell_set_ne _ _ h03.symm, cell_set_same] at hc
        have := isBody_bodyOf d
        rw [hc] at this
        exact absurd this (by decide)
      · rw [cell_set_set b _ _ e0 e3] at hc
        exact absurd (hhead c hc) e3

theorem init_gameboard_inBounds (fuel : Nat) (s : State) :
    init_gameboard fuel s ≠ .error Fault.outOfBounds := by
  unfold init_gameboard
  simp only
  split
  · rename_i e he
    intro h
    simp only [Except.error.injEq] at h
    subst h
    exact place_food_inBounds _ _ he
  · rename_i u hu
    obtain ⟨b, r, h5, -⟩ := placeObstacles_ok block_t.isObstacle rfl 5 u
    rw [h5]
    simp

theorem gameOver_inBounds (fuel : Nat) (s : State) :
    gameOver fuel s ≠ .error Fault.outOfBounds :=
  init_gameboard_inBounds fuel _

/-- A snake step from a state that carries the snake chain is either the
collision path or the ordinary move, which returns with the chain one cell
further on. -/
theorem snakeStep_chain (fuel : Nat) (s : State)
    (hch : Chain s.board s.tail_pos s.head_pos) :
    snakeStep fuel s = gameOver fuel (crashState s) ∨
    ∃ b t h,
      snakeStep fuel s = .ok { s with presc := 0, head_pos := h, board := b, tail_pos := t } ∧
      Chain b t h := by
  obtain ⟨c0, c1, c2, c3, ht, hh, hb0, hb1, hb2, hr0, hr1, hr2, hhd, h01, h02, h12, hbody,
    hhead⟩ := hch
  rcases advance_from_cell s.head_dir c3 with hw | ⟨n, hadv, hn3⟩
  · left
    apply snakeStep_wall
    rw [hh]
    exact hw
  · have hA : advance s.head_dir s.head_pos = coordOf n := by rw [hh, hadv]
    have hread : s.board.read (advance s.head_dir s.head_pos).y
        (advance s.head_dir s.head_pos).x = .ok (s.board.cell n) := by
      rw [hA]
      exact read_coordOf _ _
    by_cases he : s.board.cell n = bEMPTY
    · right
      rw [he] at hread
      refine ⟨_, _, _, ?_,
        chain_move hb0 hb1 hb2 hr0 hr1 hr2 hhd h01 h02 h12 hbody hhead hadv hn3 he⟩
      have hm := moveSnake_empty fuel s.head_pos
        { s with presc := 0, head_pos := advance s.head_dir s.head_pos }
        n.1 c3.1 c0.1 n.2 c3.2 c0.2 hA hh ht he
      rw [snakeStep_empty hread, hm]
      simp only [hA, ht]
      rfl
    · left
      exact snakeStep_occupied hread he

theorem inv_of_fields {s s' : State} (h1 : s'.crashed = s.crashed)
    (h2 : s'.snake_len = s.snake_len) (h3 : s'.score = s.score)
    (h4 : s'.step_delay = s.step_delay) (h5 : s'.board = s.board)
    (h6 : s'.tail_pos = s.tail_pos) (h7 : s'.head_pos = s.head_pos) (hi : Inv s) : Inv s' := by
  unfold Inv at hi ⊢
  rw [h1, h2, h3, h4, h5, h6, h7]
  exact hi

/-- A returning `init_gameboard` establishes the invariant when the score is 0
and the step interval 24. -/
theorem inv_of_init {fuel : Nat} {s s' : State} (h : init_gameboard fuel s = .ok s')
    (h0 : s.score = 0) (hd : s.step_delay = STEP_DELAY) : Inv s' := by
  obtain ⟨b, r, hb, hs⟩ := init_gameboard_ok h
  subst hs
  exact ⟨rfl, rfl, h0, hd, chain_of_fresh hb⟩

theorem inv_of_gameOver {fuel : Nat} {s s' : State} (h : gameOver fuel s = .ok s')
    (h0 : s.score = 0) (hd : s.step_delay = STEP_DELAY) : Inv s' := by
  unfold gameOver at h
  obtain ⟨g1, g2, -⟩ := saveHighScore_fields s
  exact inv_of_init h (g1.trans h0) (g2.trans hd)

theorem latchButtons_inBounds (fuel : Nat) (btn : Buttons) (s : State) :
    latchButtons fuel btn s ≠ .error Fault.outOfBounds := by
  rw [latchButtons_eq]
  split
  · have := init_gameboard_inBounds fuel s
    cases hi : init_gameboard fuel s with
    | error e =>
      rw [hi] at this
      simpa using this
    | ok t => simp
  · simp

theorem inv_latch {fuel : Nat} {btn : Buttons} {s s1 : State} (hi : Inv s)
    (h : latchButtons fuel btn s = .ok s1) : Inv s1 := by
  rw [latchButtons_eq] at h
  split at h
  · split at h
    · simp at h
    · rename_i t ht
      simp only [Except.ok.injEq] at h
      have hit : Inv t := inv_of_init ht hi.2.2.1 hi.2.2.2.1
      obtain ⟨-, -, -, p4, p5, p6, -, p8, p9, p10, -, p12, -, -⟩ :=
        pauseLatch_fields btn { t with presc := 0, restart_held := true }
      rw [← h]
      exact inv_of_fields p10 p8 p9 p12 p4 p6 p5 hit
  · simp only [Except.ok.injEq] at h
    obtain ⟨-, -, -, p4, p5, p6, -, p8, p9, p10, -, p12, -, -⟩ :=
      pauseLatch_fields btn { s with restart_held := btn.restart }
    rw [← h]
    exact inv_of_fields p10 p8 p9 p12 p4 p6 p5 hi

theorem inv_playTick {fuel : Nat} {btn : Buttons} {s : State} (hi : Inv s) :
    playTick fuel btn s ≠ .error Fault.outOfBounds ∧
    ∀ s', playTick fuel btn s = .ok s' → Inv s' := by
  obtain ⟨hc, hl, h0, hd, hch⟩ := hi
  by_cases hf : s.presc = s.step_delay
  · rw [playTick_fires hc hf]
    rcases snakeStep_chain fuel (stepInput btn s) hch with hg | ⟨b, t, h, hs, hch2⟩
    · rw [hg]
      exact ⟨gameOver_inBounds _ _, fun s' h => inv_of_gameOver h h0 hd⟩
    · rw [hs]
      refine ⟨by simp, fun s' h' => ?_⟩
      simp only [Except.ok.injEq] at h'
      subst h'
      exact ⟨hc, hl, h0, hd, hch2⟩
  · rw [playTick_waits hc hf]
    refine ⟨by simp, fun s' h' => ?_⟩
    simp only [Except.ok.injEq] at h'
    subst h'
    exact ⟨hc, hl, h0, hd, hch⟩

/-- The invariant is kept by every call of `update`, and such a call makes no
out-of-bounds access. -/
theorem inv_update {fuel : Nat} {btn : Buttons} {s : State} (hi : Inv s) :
    update fuel btn s ≠ .error Fault.outOfBounds ∧
    ∀ s', update fuel btn s = .ok s' → Inv s' := by
  cases hl : latchButtons fuel btn s with
  | error e =>
    have := latchButtons_inBounds fuel btn s
    unfold update updateWith
    rw [hl] at this ⊢
    exact ⟨this, fun s' h => by simp at h⟩
  | ok s1 =>
    have hi1 := inv_latch hi hl
    rw [update_of_latch hl]
    split
    · refine ⟨by simp, fun s' h => ?_⟩
      simp only [Except.ok.injEq] at h
      subst h
      exact hi1
    · exact inv_playTick hi1

theorem inv_boot {fuel : Nat} {rnd : Nat → Nat} {hs : Nat} {s : State}
    (h : boot fuel rnd hs = .ok s) : Inv s := by
  obtain ⟨b, r, hb, hs0⟩ := boot_ok h
  subst hs0
  exact ⟨rfl, rfl, rfl, rfl, chain_of_fresh hb⟩

/-- Every reachable state satisfies the invariant. -/
theorem reachable_inv {s : State} (h : Reachable s) : Inv s := by
  induction h with
  | start fuel rnd hs s hb => exact inv_boot hb
  | step fuel btn s s' _ hu ih => exact (inv_update ih).2 s' hu

theorem reachable_run {fuel : Nat} {btns : List Buttons} {s s' : State} (hr : Reachable s)
    (h : run fuel btns s = .ok s') : Reachable s' := by
  induction btns generalizing s with
  | nil =>
    simp only [run, Except.ok.injEq] at h
    subst h
    exact hr
  | cons b rest ih =>
    rw [run] at h
    cases hu : update fuel b s with
    | error e => rw [hu] at h; simp at h
    | ok s1 =>
      rw [hu] at h
      exact ih (Reachable.step fuel b s s1 hr hu) h

theorem bodyStep_cell {b : Board} {c : Fin ROWS × Fin COLS} (h : (b.cell c).isBody = true) :
    bodyStep b (coordOf c) = some (retract (b.cell c) (coordOf c)) := by
  unfold bodyStep
  rw [read_coordOf]
  simp only [h, if_true]

/-- Following the links of the chain from the tail: the head is reached after
exactly three links, over body cells only, and every body or head cell of the
board is met on the way. -/
theorem chain_follow {b : Board} {tail head : coord_t} (h : Chain b tail head) :
    follow 3 b tail = some head ∧
    (∀ k, k < 3 → ∃ c, follow k b tail = some (coordOf c) ∧ (b.cell c).isBody = true ∧
      coordOf c ≠ head) ∧
    (∀ c, ((b.cell c).isBody = true ∨ b.cell c = bHEAD) →
      ∃ k, k ≤ 3 ∧ follow k b tail = some (coordOf c)) := by
  obtain ⟨c0, c1, c2, c3, ht, hh, hb0, hb1, hb2, hr0, hr1, hr2, hhd, h01, h02, h12, hbody,
    hhead⟩ := h
  have hnb3 := not_body_of_head_or_empty hhd
  have f0 : follow 0 b tail = some (coordOf c0) := by rw [ht]; rfl
  have f1 : follow 1 b tail = some (coordOf c1) := by
    rw [ht]
    simp only [follow, bodyStep_cell hb0, hr0]
  have f2 : follow 2 b tail = some (coordOf c2) := by
    rw [ht]
    simp only [follow, bodyStep_cell hb0, hr0, bodyStep_cell hb1, hr1]
  have f3 : follow 3 b tail = some (coordOf c3) := by
    rw [ht]
    simp only [follow, bodyStep_cell hb0, hr0, bodyStep_cell hb1, hr1, bodyStep_cell hb2, hr2]
  have ne3 : ∀ c, (b.cell c).isBody = true → coordOf c ≠ head := by
    intro c hc e
    rw [hh] at e
    rw [coordOf_inj e, hnb3] at hc
    exact absurd hc (by decide)
  refine ⟨by rw [f3, hh], ?_, ?_⟩
  · intro k hk
    match k, hk with
    | 0, _ => exact ⟨c0, f0, hb0, ne3 c0 hb0⟩
    | 1, _ => exact ⟨c1, f1, hb1, ne3 c1 hb1⟩
    | 2, _ => exact ⟨c2, f2, hb2, ne3 c2 hb2⟩
  · intro c hc
    rcases hc with hc | hc
    · rcases hbody c hc with e | e | e
      · exact ⟨0, by omega, by rw [e]; exact f0⟩
      · exact ⟨1, by omega, by rw [e]; exact f1⟩
      · exact ⟨2, by omega, by rw [e]; exact f2⟩
    · exact ⟨3, le_refl _, by rw [hhead c hc]; exact f3⟩

/-- A returning call of `update` leaves the length as it was or resets it to 4. -/
theorem update_len {fuel : Nat} {btn : Buttons} {s s' : State}
    (h : update fuel btn s = .ok s') : s'.snake_len = s.snake_len ∨ s'.snake_len = 4 := by
  cases hl : latchButtons fuel btn s with
  | error e =>
    unfold update updateWith at h
    rw [hl] at h
    simp at h
  | ok s1 =>
    have h1 : s1.snake_len = s.snake_len ∨ s1.snake_len = 4 := by
      rw [latchButtons_eq] at hl
      split at hl
      · split at hl
        · simp at hl
        · rename_i t ht
          simp only [Except.ok.injEq] at hl
          obtain ⟨b, r, -, hs⟩ := init_gameboard_ok ht
          right
          rw [← hl, (pauseLatch_fields btn _).2.2.2.2.2.2.2.1, hs]
      · simp only [Except.ok.injEq] at hl
        left
        rw [← hl, (pauseLatch_fields btn _).2.2.2.2.2.2.2.1]
    have h2 : s'.snake_len = s1.snake_len ∨ s'.snake_len = 4 := by
      rw [update_of_latch hl] at h
      split at h
      · simp only [Except.ok.injEq] at h
        exact Or.inl (by rw [h])
      · unfold playTick playTickWith at h
        split at h
        · simp only at h
          split at h
          · rcases snakeStep_cases h with hg | ⟨b, t, hs⟩
            · exact Or.inr (gameOver_post hg).2.2.2.2.1
            · exact Or.inl (by rw [hs])
          · simp only [Except.ok.injEq] at h
            exact Or.inl (by rw [← h])
        · simp only [Except.ok.injEq] at h
          exact Or.inl (by rw [h])
    rcases h2 with h2 | h2
    · rcases h1 with h1 | h1
      · exact Or.inl (h2.trans h1)
      · exact Or.inr (h2.trans h1)
    · exact Or.inr h2

theorem bind_ok {r : Except Fault State} {f : State → Except Fault State} {s : State}
    (h : (r >>= f) = .ok s) : ∃ s0, r = .ok s0 ∧ f s0 = .ok s := by
  cases r with
  | error e => simp [bind, Except.bind] at h
  | ok s0 => exact ⟨s0, rfl, h⟩

theorem updateWith_fires {onCrash : State → Except Fault State} {fuel : Nat} {btn : Buttons}
    {s s1 : State} (hl : latchButtons fuel btn s = .ok s1) (hp : s1.paused = false)
    (hc : s1.crashed = false) (hf : s1.presc = s1.step_delay) :
    updateWith onCrash fuel btn s = snakeStepWith onCrash fuel (stepInput btn s1) := by
  have h1 : (!s1.crashed) = true := by rw [hc]; rfl
  unfold updateWith
  rw [hl]
  simp only
  rw [if_neg (by rw [hp]; exact Bool.false_ne_true)]
  unfold playTickWith
  simp only [h1, if_true]
  rw [if_pos hf]
  rfl

/-- A step whose new head coordinate is at a wall ends in the call of `onCrash`,
made on the state in which only the prescaler, the head coordinate and
`crashed` have been assigned. -/
theorem snakeStepWith_wall {onCrash : State → Except Fault State} {fuel : Nat} {s : State}
    (hw : HitsWall (advance s.head_dir s.head_pos)) :
    snakeStepWith onCrash fuel s = onCrash (crashState s) := by
  unfold snakeStepWith
  unfold HitsWall at hw
  simp only [hw, if_true]
  rfl

/-- A step onto a cell of the board that is not empty ends in the call of
`onCrash`, made on the state in which only the prescaler, the head coordinate
and `crashed` have been assigned. -/
theorem snakeStepWith_occupied {onCrash : State → Except Fault State} {fuel : Nat} {s : State}
    {c : block_t}
    (hr : s.board.read (advance s.head_dir s.head_pos).y (advance s.head_dir s.head_pos).x = .ok c)
    (hc : c ≠ bEMPTY) : snakeStepWith onCrash fuel s = onCrash (crashState s) := by
  have hw := read_not_wall hr
  unfold HitsWall at hw
  unfold snakeStepWith
  simp only [hw, if_false, hr, hc, ne_eq, not_false_eq_true, if_true]
  rfl

/-! ## The claims -/

/-- C1: startup with the food drawn onto row 0, column 4, then 24 idle calls: the
next call fires a step with the food right ahead. The code takes the collision
path (the test `!= bEMPTY` of line 270 also catches food): the length stays 4,
the score stays 0 and the snake is back at its start. -/
theorem food_ahead_crashes_instead_of_growing :
    ((boot 1 rndFoodAhead 0 >>= run 1 (List.replicate 24 noButtons)).toOption.map fun s =>
        (s.paused, s.crashed, s.presc, s.step_delay))
      = some (false, false, 24, 24) ∧
    ((boot 1 rndFoodAhead 0 >>= run 1 (List.replicate 24 noButtons)).toOption.map fun s =>
        (s.head_pos, s.head_dir, s.board 0 4))
      = some ({ x := 3, y := 0 }, dRIGHT, bFOOD) ∧
    ((boot 1 rndFoodAhead 0 >>= run 1 (List.replicate 24 noButtons)).toOption.map fun s =>
        (s.tail_pos, s.snake_len, s.score))
      = some ({ x := 0, y := 0 }, 4, 0) ∧
    ((boot 1 rndFoodAhead 0 >>= run 1 (List.replicate 24 noButtons)
        >>= update 1 noButtons).toOption.map fun s =>
        (s.snake_len, s.score, s.head_pos, s.tail_pos))
      = some (4, 0, { x := 3, y := 0 }, { x := 0, y := 0 }) ∧
    ((boot 1 rndFoodAhead 0 >>= run 1 (List.replicate 24 noButtons)
        >>= update 1 noButtons).toOption.map fun s =>
        (s.board 0 3, s.board 0 4, s.crashed))
      = some (bHEAD, bEMPTY, false) := by
  decide!

/-- C2: startup with all draws 9, then 24 idle calls: the next call fires a step
onto the empty cell on row 0, column 4. The length stays 4, the old head cell
becomes `Body(Right)`, the head coordinate and the tail move on and the old
tail cell is cleared, but the cell under the new head stays empty: the branch of
lines 283-294 has no `board[head_pos.y][head_pos.x] = bHEAD`. -/
theorem ordinary_move_leaves_head_cell_empty :
    ((boot 1 rndNine 0 >>= run 1 (List.replicate 24 noButtons)).toOption.map fun s =>
        (s.paused, s.crashed, s.presc, s.step_delay))
      = some (false, false, 24, 24) ∧
    ((boot 1 rndNine 0 >>= run 1 (List.replicate 24 noButtons)).toOption.map fun s =>
        (s.head_pos, s.tail_pos, s.head_dir, s.board 0 4))
      = some ({ x := 3, y := 0 }, { x := 0, y := 0 }, dRIGHT, bEMPTY) ∧
    ((boot 1 rndNine 0 >>= run 1 (List.replicate 24 noButtons)
        >>= update 1 noButtons).toOption.map fun s =>
        (s.snake_len, s.head_pos, s.tail_pos))
      = some (4, { x := 4, y := 0 }, { x := 1, y := 0 }) ∧
    ((boot 1 rndNine 0 >>= run 1 (List.replicate 24 noButtons)
        >>= update 1 noButtons).toOption.map fun s =>
        (s.board 0 0, s.board 0 3, s.board 0 4))
      = some (bEMPTY, bBODY_RIGHT, bEMPTY) := by
  decide!

/-- C3: startup with all draws 9, then 25 idle calls of `update`: the game is
running (`crashed` false, length 4) with 3 body cells and no head cell on the
board. -/
theorem no_head_cell_after_first_move :
    ((boot 1 rndNine 0 >>= run 1 (List.replicate 25 noButtons)).toOption.map fun s =>
        (countCells block_t.isHead s.board, countCells block_t.isBody s.board, s.snake_len,
          s.crashed))
      = some (0, 3, 4, false) := by
  decide!

/-- Counterexample to C4: 49 idle calls after startup the snake has moved once and
the next call fires; with Up pressed the new head is at row -1. After that call
`crashed` is false and the board is not the one before the step: row 0, column 0
went from empty to `Body(Right)`. -/
theorem wall_step_counterexample :
    ((boot 1 rndNine 0 >>= run 1 (List.replicate 49 noButtons)).toOption.map fun s =>
        (s.paused, s.crashed, s.presc, s.step_delay))
      = some (false, false, 24, 24) ∧
    ((boot 1 rndNine 0 >>= run 1 (List.replicate 49 noButtons)).toOption.map fun s =>
        (advance (steer upButton s.head_dir) s.head_pos, s.board 0 0))
      = some ({ x := 4, y := -1 }, bEMPTY) ∧
    ((boot 1 rndNine 0 >>= run 1 (List.replicate 49 noButtons)
        >>= update 1 upButton).toOption.map fun s => (s.crashed, s.board 0 0))
      = some (false, bBODY_RIGHT) := by
  decide!

/-- C4 (amended): when `update` fires a snake step whose new head coordinate is
one step outside the board, the call ends in the call of `gameOver`: run with
any function in the place of `gameOver`, `update` returns what that function
returns on one state `t`, which the identity shows; in `t`, the state at the
call, `crashed` is true and the board, the tail, the length and the score are
as they were before the step, only the head coordinate, the heading and the
prescaler having been assigned. `gameOver` then re-initialises the game, so
when `update` returns `crashed` is false again and the board is a fresh initial
layout with the snake back at its start. -/
theorem wall_step_resets_game (fuel : Nat) (btn : Buttons) (s s1 : State)
    (hl : latchButtons fuel btn s = .ok s1) (hp : s1.paused = false)
    (hc : s1.crashed = false) (hf : s1.presc = s1.step_delay)
    (hw : HitsWall (advance (steer btn s1.head_dir) s1.head_pos)) :
    (∃ t, updateWith (fun u => .ok u) fuel btn s = .ok t ∧
      t.crashed = true ∧ t.board = s1.board ∧ t.tail_pos = s1.tail_pos ∧
      t.snake_len = s1.snake_len ∧ t.score = s1.score ∧
      t.head_pos = advance (steer btn s1.head_dir) s1.head_pos ∧
      (∀ onCrash : State → Except Fault State, updateWith onCrash fuel btn s = onCrash t) ∧
      update fuel btn s = gameOver fuel t) ∧
    ∀ s', update fuel btn s = .ok s' →
      s'.crashed = false ∧ FreshLayout s'.board ∧ s'.head_pos = { x := 3, y := 0 } ∧
      s'.tail_pos = { x := 0, y := 0 } ∧ s'.snake_len = 4 ∧ s'.head_dir = dRIGHT ∧
      s'.score = s1.score := by
  have hk : ∀ onCrash : State → Except Fault State,
      updateWith onCrash fuel btn s = onCrash (crashState (stepInput btn s1)) := by
    intro onCrash
    rw [updateWith_fires hl hp hc hf]
    exact snakeStepWith_wall hw
  have hu : update fuel btn s = gameOver fuel (crashState (stepInput btn s1)) :=
    hk (gameOver fuel)
  refine ⟨⟨crashState (stepInput btn s1), hk _, rfl, rfl, rfl, rfl, rfl, rfl, hk, hu⟩, ?_⟩
  intro s' hs'
  rw [hu] at hs'
  obtain ⟨h1, h2, h3, h4, h5, h6, h7, -⟩ := gameOver_post hs'
  exact ⟨h1, h2, h3, h4, h5, h6, h7⟩

/-- Witness for C4 (amended): in `readyState` with Up pressed the head leaves the
board through the top edge. -/
theorem wall_step_resets_game_witness :
    HitsWall (advance (steer upButton readyState.head_dir) readyState.head_pos) ∧
    (∃ t, updateWith (fun u => .ok u) 1 upButton readyState = .ok t ∧ t.crashed = true ∧
      t.board = readyState.board ∧ update 1 upButton readyState = gameOver 1 t) ∧
    ∃ s', update 1 upButton readyState = .ok s' ∧ s'.crashed = false ∧ FreshLayout s'.board :=
  have t := wall_step_resets_game 1 upButton readyState readyState rfl rfl rfl rfl (by decide)
  ⟨by decide,
    t.1.imp fun _ h => ⟨h.1, h.2.1, h.2.2.1, h.2.2.2.2.2.2.2.2⟩,
    (exists_ok (by decide!)).imp fun s' h => ⟨h, (t.2 s' h).1, (t.2 s' h).2.1⟩⟩

/-- C5: when `update` fires a snake step and the cell ahead of the head is inside
the board and holds a body segment or an obstacle, the step takes the collision
path: run with any function in the place of `gameOver`, `update` returns what
that function returns on one state `t`, which the identity shows; in `t`, the
state at the call, `crashed` is true and the board, the tail, the length and
the score are as they were before the step, so neither the head-advance nor
the tail-retraction code has run, and nothing runs after the call. With
`gameOver` itself, `update` is `gameOver` on `t`. -/
theorem occupied_step_takes_collision_path (fuel : Nat) (btn : Buttons) (s s1 : State)
    (c : block_t) (hl : latchButtons fuel btn s = .ok s1) (hp : s1.paused = false)
    (hc : s1.crashed = false) (hf : s1.presc = s1.step_delay)
    (hr : s1.board.read (advance (steer btn s1.head_dir) s1.head_pos).y
      (advance (steer btn s1.head_dir) s1.head_pos).x = .ok c)
    (hb : c.isBody = true ∨ c = bOBSTACLE) :
    ∃ t, updateWith (fun u => .ok u) fuel btn s = .ok t ∧
      t.crashed = true ∧ t.board = s1.board ∧ t.tail_pos = s1.tail_pos ∧
      t.snake_len = s1.snake_len ∧ t.score = s1.score ∧
      t.head_pos = advance (steer btn s1.head_dir) s1.head_pos ∧
      (∀ onCrash : State → Except Fault State, updateWith onCrash fuel btn s = onCrash t) ∧
      update fuel btn s = gameOver fuel t := by
  have hne : c ≠ bEMPTY := by
    rcases hb with hb | hb
    · intro e
      rw [e] at hb
      exact absurd hb (by decide)
    · rw [hb]
      decide
  have hk : ∀ onCrash : State → Except Fault State,
      updateWith onCrash fuel btn s = onCrash (crashState (stepInput btn s1)) := by
    intro onCrash
    rw [updateWith_fires hl hp hc hf]
    exact snakeStepWith_occupied hr hne
  exact ⟨crashState (stepInput btn s1), hk _, rfl, rfl, rfl, rfl, rfl, rfl, hk,
    hk (gameOver fuel)⟩

/-- Witness for C5: in `readyState` with Left pressed the head turns back into
the body segment on row 0, column 2. -/
theorem occupied_step_takes_collision_path_witness :
    ∃ t, updateWith (fun u => .ok u) 1 leftButton readyState = .ok t ∧ t.crashed = true ∧
      t.board = readyState.board ∧ t.tail_pos = readyState.tail_pos ∧
      update 1 leftButton readyState = gameOver 1 t :=
  (occupied_step_takes_collision_path 1 leftButton readyState readyState bBODY_RIGHT
    rfl rfl rfl rfl rfl (Or.inl rfl)).imp
    fun _ h => ⟨h.1, h.2.1, h.2.2.1, h.2.2.2.1, h.2.2.2.2.2.2.2.2⟩

/-- Counterexample to C6: right after startup (restart latch clear, score 0, step
interval 24) a call with Restart and Left asserted leaves the heading Left; from
the same state with score 30 and step interval 20 a restart leaves score 30 and
step interval 20; and with step interval 0 the restart is followed at once by a
step, so the head is at (4,0). -/
theorem restart_counterexample :
    ((boot 1 rndNine 0).toOption.map fun s => (s.restart_held, s.score, s.step_delay))
      = some (false, 0, 24) ∧
    ((boot 1 rndNine 0 >>= update 1 restartLeftButton).toOption.map fun s => s.head_dir)
      = some dLEFT ∧
    ((boot 1 rndNine 0 >>= fun s =>
        update 1 restartButton { s with score := 30, step_delay := 20 }).toOption.map
        fun s => (s.score, s.step_delay))
      = some (30, 20) ∧
    ((boot 1 rndNine 0 >>= fun s =>
        update 1 restartButton { s with step_delay := 0 }).toOption.map
        fun s => (s.head_pos, s.board 0 3))
      = some ({ x := 4, y := 0 }, bBODY_RIGHT) := by
  decide!

/-- C6 (amended): on a restart edge, in a state with a positive step interval,
a returning `update` leaves a fresh initial board, the snake at its start
(head (3,0), tail (0,0), length 4), `crashed` false and the restart latch set;
the score and the step interval are left as they were; the heading is Right
unless the game is not paused and a directional button is asserted, which then
sets it; the prescaler is 0 when paused and 1 otherwise. -/
theorem restart_edge_reinitialises (fuel : Nat) (btn : Buttons) (s s' : State)
    (hr : btn.restart = true) (hh : s.restart_held = false) (hd : 0 < s.step_delay)
    (h : update fuel btn s = .ok s') :
    FreshLayout s'.board ∧ s'.head_pos = { x := 3, y := 0 } ∧ s'.tail_pos = { x := 0, y := 0 } ∧
    s'.snake_len = 4 ∧ s'.crashed = false ∧ s'.restart_held = true ∧
    s'.score = s.score ∧ s'.step_delay = s.step_delay ∧
    s'.head_dir = (if s'.paused then dRIGHT else steer btn dRIGHT) ∧
    s'.presc = (if s'.paused then 0 else 1) := by
  cases hl : latchButtons fuel btn s with
  | error e =>
    unfold update updateWith at h
    rw [hl] at h
    simp at h
  | ok s1 =>
    obtain ⟨s0, hi, e1, e2, e3, e4, e5, e6, e7, e8, e9, e10⟩ := latch_restart hr hh hl
    obtain ⟨b, r, hb, hs0⟩ := init_gameboard_ok hi
    subst hs0
    simp only at e1 e2 e3 e4 e5 e6 e7 e8
    rw [update_of_latch hl] at h
    by_cases hp : s1.paused = true
    · rw [if_pos hp] at h
      simp only [Except.ok.injEq] at h
      subst h
      rw [e1, e2, e3, e4, e5, e6, e7, e8, e9, e10, hp]
      exact ⟨hb, rfl, rfl, rfl, rfl, rfl, rfl, rfl, rfl, rfl⟩
    · have hne : s1.presc ≠ s1.step_delay := by rw [e9, e8]; omega
      rw [if_neg hp, playTick_waits e6 hne] at h
      simp only [Except.ok.injEq] at h
      subst h
      have hp' : (stepInput btn s1).paused = false := by
        simpa [stepInput] using hp
      rw [hp']
      have q : (stepInput btn s1).board = s1.board ∧ (stepInput btn s1).head_pos = s1.head_pos ∧
          (stepInput btn s1).tail_pos = s1.tail_pos ∧
          (stepInput btn s1).snake_len = s1.snake_len ∧
          (stepInput btn s1).crashed = s1.crashed ∧
          (stepInput btn s1).restart_held = s1.restart_held ∧
          (stepInput btn s1).score = s1.score ∧
          (stepInput btn s1).step_delay = s1.step_delay ∧
          (stepInput btn s1).head_dir = steer btn s1.head_dir ∧
          (stepInput btn s1).presc = (s1.presc + 1) % 256 :=
        ⟨rfl, rfl, rfl, rfl, rfl, rfl, rfl, rfl, rfl, rfl⟩
      obtain ⟨q1, q2, q3, q4, q5, q6, q7, q8, q9, q10⟩ := q
      rw [q1, q2, q3, q4, q5, q6, q7, q8, q9, q10, e1, e2, e3, e4, e5, e6, e7, e8, e9, e10]
      exact ⟨hb, rfl, rfl, rfl, rfl, rfl, rfl, rfl, rfl, rfl⟩

/-- Witness for C6 (amended): Restart and Left asserted together in `readyState`. -/
theorem restart_edge_reinitialises_witness :
    ∃ s', update 1 restartLeftButton readyState = .ok s' ∧
      FreshLayout s'.board ∧ s'.snake_len = 4 ∧ s'.score = readyState.score ∧
      s'.head_dir = (if s'.paused then dRIGHT else steer restartLeftButton dRIGHT) :=
  (exists_ok (by decide!)).imp fun s' h =>
    have t := restart_edge_reinitialises 1 restartLeftButton readyState s' rfl rfl (by decide) h
    ⟨h, t.1, t.2.2.2.1, t.2.2.2.2.2.2.1, t.2.2.2.2.2.2.2.2.1⟩

/-- Counterexample to C7: startup with all draws 9 leaves row 0, column 4 empty,
and after exactly 24 idle calls the snake has not moved: head (3,0), row 0
column 0 still `Body(Right)`, tail (0,0), prescaler 24. -/
theorem step_after_24_calls_counterexample :
    ((boot 1 rndNine 0).toOption.map fun s => (s.presc, s.board 0 4)) = some (0, bEMPTY) ∧
    ((boot 1 rndNine 0 >>= run 1 (List.replicate 24 noButtons)).toOption.map fun s =>
        (s.head_pos, s.board 0 0, s.tail_pos, s.presc))
      = some ({ x := 3, y := 0 }, bBODY_RIGHT, { x := 0, y := 0 }, 24) := by
  decide!

/-- C7 (amended): from the startup state with row 0, column 4 empty and no button
asserted, the first 24 calls of `update` only count the prescaler up (the snake
stays at head (3,0)), and it is the 25th call that moves the snake one cell
right: head (4,0), row 0 column 0 empty, tail (1,0). In general a not-crashed
tick steps the snake exactly when it finds the prescaler equal to the step
interval, before incrementing it. -/
theorem first_step_on_25th_call (fuel : Nat) (rnd : Nat → Nat) (hs : Nat) (s0 : State)
    (hb : boot fuel rnd hs = .ok s0) (he : s0.board 0 4 = bEMPTY) :
    s0.head_pos = { x := 3, y := 0 } ∧ s0.presc = 0 ∧ s0.step_delay = STEP_DELAY ∧
    (∀ n, n ≤ 24 → run fuel (List.replicate n noButtons) s0 = .ok { s0 with presc := n }) ∧
    (∃ s25, run fuel (List.replicate 25 noButtons) s0 = .ok s25 ∧
      s25.head_pos = { x := 4, y := 0 } ∧ s25.board 0 0 = bEMPTY ∧
      s25.tail_pos = { x := 1, y := 0 } ∧ s25.presc = 0) ∧
    (∀ (btn : Buttons) (s : State), s.crashed = false →
      (s.presc = s.step_delay → playTick fuel btn s = snakeStep fuel (stepInput btn s)) ∧
      (s.presc ≠ s.step_delay → playTick fuel btn s = .ok (stepInput btn s))) := by
  obtain ⟨b, r, hfresh, hs0⟩ := boot_ok hb
  have hhead : s0.head_pos = { x := 3, y := 0 } := by rw [hs0]
  have htail : s0.tail_pos = { x := 0, y := 0 } := by rw [hs0]
  have hdir : s0.head_dir = dRIGHT := by rw [hs0]
  have hcr : s0.crashed = false := by rw [hs0]
  have hpa : s0.paused = false := by rw [hs0]; rfl
  have hrh : s0.restart_held = false := by rw [hs0]; rfl
  have hph : s0.pause_held = false := by rw [hs0]; rfl
  have hpr : s0.presc = 0 := by rw [hs0]; rfl
  have hsd : s0.step_delay = 24 := by rw [hs0]; rfl
  have hb00 : s0.board 0 0 = bBODY_RIGHT := by rw [hs0]; exact hfresh.1
  have hidle : ∀ n, n ≤ 24 →
      run fuel (List.replicate n noButtons) s0 = .ok { s0 with presc := n } := by
    intro n hn
    rw [run_idle fuel n s0 hrh hph hpa hcr (by omega) (by omega), hpr, Nat.zero_add]
  refine ⟨hhead, hpr, hsd, hidle, ?_,
    fun btn s hc => ⟨playTick_fires hc, playTick_waits hc⟩⟩
  have h25 : List.replicate 25 noButtons = List.replicate 24 noButtons ++ [noButtons] := by
    decide
  have hadv : advance (steer noButtons s0.head_dir) s0.head_pos = { x := 4, y := 0 } := by
    rw [hdir, hhead]
    decide
  have hmove := update_move fuel noButtons { s0 with presc := 24 } { s0 with presc := 24 }
    0 0 0 4 3 0 (latch_idle hrh hph) hpa hcr hsd.symm hhead hadv htail he
  rw [h25, run_append, hidle 24 (le_refl _)]
  simp only [run]
  rw [hmove]
  refine ⟨_, rfl, hadv, ?_, ?_, rfl⟩
  · show ((s0.board.set 0 3 (bodyOf (steer noButtons s0.head_dir))).set 0 0 bEMPTY) 0 0 = bEMPTY
    exact Board.set_same _ _ _ _
  · show retract ((s0.board.set 0 3 (bodyOf (steer noButtons s0.head_dir))) 0 0) s0.tail_pos = _
    rw [Board.set_other _ _ _ _ _ _ (by decide), hb00, htail]
    decide

/-- Witness for C7 (amended): startup with all draws 9. -/
theorem first_step_on_25th_call_witness :
    ∃ s0, boot 1 rndNine 0 = .ok s0 ∧ s0.board 0 4 = bEMPTY ∧
      ∃ s25, run 1 (List.replicate 25 noButtons) s0 = .ok s25 ∧
        s25.head_pos = { x := 4, y := 0 } ∧ s25.board 0 0 = bEMPTY ∧
        s25.tail_pos = { x := 1, y := 0 } ∧ s25.presc = 0 :=
  (exists_ok_obs (f := fun s => s.board 0 4) (v := bEMPTY) (by decide!)).imp fun s0 h =>
    ⟨h.1, h.2, (first_step_on_25th_call 1 rndNine 0 s0 h.1 h.2).2.2.2.2.1⟩

/-- C8: whenever `place_food` returns, exactly one cell that was empty has become
food and every other cell is as before; the drawn indices are always inside the
board (the run never faults with an out-of-bounds access). -/
theorem place_food_fills_one_empty_cell (fuel : Nat) (s : State) :
    place_food fuel s ≠ .error Fault.outOfBounds ∧
    ∀ s', place_food fuel s = .ok s' →
      ∃ i j, s.board i j = bEMPTY ∧ s'.board i j = bFOOD ∧
        (∀ i' j', ¬ (i' = i ∧ j' = j) → s'.board i' j' = s.board i' j') ∧
        countCells block_t.isFood s'.board = countCells block_t.isFood s.board + 1 := by
  refine ⟨place_food_inBounds fuel s, ?_⟩
  intro s' h
  obtain ⟨i, j, r, he, hs⟩ := place_food_ok h
  subst hs
  refine ⟨i, j, he, Board.set_same _ _ _ _, fun i' j' hne => Board.set_other _ _ _ _ _ _ hne, ?_⟩
  have := countCells_set block_t.isFood s.board i j bFOOD
  rw [he] at this
  simpa using this

/-- Witness for C8: on the start board with all draws 9 the call returns after
one round. -/
theorem place_food_fills_one_empty_cell_witness :
    ∃ s', place_food 1 { readyState with board := startBoard } = .ok s' ∧
      ∃ i j, startBoard i j = bEMPTY ∧ s'.board i j = bFOOD ∧
        (∀ i' j', ¬ (i' = i ∧ j' = j) → s'.board i' j' = startBoard i' j') ∧
        countCells block_t.isFood s'.board = countCells block_t.isFood startBoard + 1 :=
  (exists_ok (by decide!)).imp fun s' h =>
    ⟨h, (place_food_fills_one_empty_cell 1 { readyState with board := startBoard }).2 s' h⟩

/-- C9: `placeObstacles n` always returns; each cell is either unchanged or was
empty and is now an obstacle; the number of obstacles grows by at most `n`, and
by less than `n` as soon as the draw of some round lands on a cell that is not
empty at that time. -/
theorem placeObstacles_only_fills_empty (n : Nat) (s : State) :
    ∃ s', placeObstacles n s = .ok s' ∧
      (∀ i j, s'.board i j = s.board i j ∨ (s.board i j = bEMPTY ∧ s'.board i j = bOBSTACLE)) ∧
      (∀ i j, s.board i j ≠ bEMPTY → s'.board i j = s.board i j) ∧
      countCells block_t.isObstacle s'.board ≤ countCells block_t.isObstacle s.board + n ∧
      (∀ k sk, k < n → placeObstacles k s = .ok sk →
        sk.board (drawRow sk) (drawCol sk) ≠ bEMPTY →
        countCells block_t.isObstacle s'.board < countCells block_t.isObstacle s.board + n) := by
  obtain ⟨b, r, h, hfill, hle, hlt⟩ := placeObstacles_ok block_t.isObstacle rfl n s
  exact ⟨_, h, hfill, fun i j hne => hfill.keeps hne, hle, hlt⟩

/-- Witness for C9: five rounds on a board whose drawn cell holds the food place
no obstacle at all. -/
theorem placeObstacles_only_fills_empty_witness :
    ∃ s', placeObstacles 5 readyState = .ok s' ∧
      countCells block_t.isObstacle s'.board < countCells block_t.isObstacle readyState.board + 5 :=
  (placeObstacles_only_fills_empty 5 readyState).imp fun _ h =>
    ⟨h.1, h.2.2.2.2 0 readyState (by decide) rfl (by decide)⟩

/-- C10: whenever `init_gameboard` returns, row 0 holds the snake (`Body(Right)` in
columns 0 to 2, the head in column 3), the head is at (3,0), the tail at (0,0),
the length is 4, the heading Right, `crashed` false, there is exactly one food
cell and at most 5 obstacles, and every cell off the snake is empty, food or
obstacle. -/
theorem init_gameboard_layout (fuel : Nat) (s s' : State)
    (h : init_gameboard fuel s = .ok s') :
    s'.board 0 0 = bodyOf dRIGHT ∧ s'.board 0 1 = bodyOf dRIGHT ∧ s'.board 0 2 = bodyOf dRIGHT ∧
    s'.board 0 3 = bHEAD ∧
    s'.head_pos = { x := 3, y := 0 } ∧ s'.tail_pos = { x := 0, y := 0 } ∧ s'.snake_len = 4 ∧
    s'.head_dir = dRIGHT ∧ s'.crashed = false ∧
    countCells block_t.isFood s'.board = 1 ∧
    countCells block_t.isObstacle s'.board ≤ 5 ∧
    (∀ i j, ¬ (i = 0 ∧ j.val ≤ 3) →
      s'.board i j = bEMPTY ∨ s'.board i j = bFOOD ∨ s'.board i j = bOBSTACLE) := by
  obtain ⟨b, r, ⟨h0, h1, h2, h3, hoff, hfood, hobst⟩, hs⟩ := init_gameboard_ok h
  subst hs
  exact ⟨h0, h1, h2, h3, rfl, rfl, rfl, rfl, rfl, hfood, hobst, hoff⟩

/-- Witness for C10: from a crashed game with a cluttered board and all draws 9,
`init_gameboard` returns with one round of `place_food`. -/
theorem init_gameboard_layout_witness :
    ∃ s', init_gameboard 1
        { readyState with crashed := true, snake_len := 9, board := fun _ _ => bOBSTACLE } = .ok s' ∧
      s'.board 0 3 = bHEAD ∧ s'.snake_len = 4 ∧ s'.crashed = false ∧
      countCells block_t.isFood s'.board = 1 ∧ countCells block_t.isObstacle s'.board ≤ 5 :=
  (exists_ok (by decide!)).imp fun s' h =>
    have t := init_gameboard_layout 1 _ s' h
    ⟨h, t.2.2.2.1, t.2.2.2.2.2.2.1, t.2.2.2.2.2.2.2.2.1, t.2.2.2.2.2.2.2.2.2.1,
      t.2.2.2.2.2.2.2.2.2.2.1⟩

/-- C12: with the step interval a variable starting at 24, `adjustSpeed` lowers it
by exactly one when the score is a multiple of 50 and the interval is above 10
and leaves it unchanged otherwise, touching nothing else; so over every
sequence of calls, whatever the scores, the interval stays between the floor 10
and 24 and never increases from one call to the next. -/
theorem adjustSpeed_floor_and_monotone :
    (∀ s : State,
      (adjustSpeed s).step_delay =
        (if s.score % 50 = 0 ∧ 10 < s.step_delay then s.step_delay - 1 else s.step_delay) ∧
      (adjustSpeed s).score = s.score ∧ (adjustSpeed s).board = s.board ∧
      (adjustSpeed s).snake_len = s.snake_len ∧ (adjustSpeed s).presc = s.presc) ∧
    (∀ (scores : List Nat) (s : State),
      10 ≤ (adjustCalls scores { s with step_delay := STEP_DELAY }).step_delay ∧
      (adjustCalls scores { s with step_delay := STEP_DELAY }).step_delay ≤ STEP_DELAY) ∧
    (∀ (l1 l2 : List Nat) (s : State),
      (adjustCalls (l1 ++ l2) s).step_delay ≤ (adjustCalls l1 s).step_delay ∧
      (10 ≤ s.step_delay → 10 ≤ (adjustCalls l1 s).step_delay)) := by
  refine ⟨fun s => ⟨adjustSpeed_step_delay s, ?_⟩, fun scores s => ?_, fun l1 l2 s => ?_⟩
  · unfold adjustSpeed
    split <;> exact ⟨rfl, rfl, rfl, rfl⟩
  · have h := adjustCalls_bounds scores { s with step_delay := STEP_DELAY }
    exact ⟨h.2 (show 10 ≤ 24 by omega), h.1⟩
  · rw [adjustCalls_append]
    exact ⟨(adjustCalls_bounds l2 _).1, (adjustCalls_bounds l1 s).2⟩

/-- Witness for C12: from interval 24, calls at scores 50, 60 and 100 lower it at
the first and the third call; from interval 10 a call at score 50 keeps it. -/
theorem adjustSpeed_floor_and_monotone_witness :
    (adjustCalls [50, 60, 100] readyState).step_delay = 22 ∧
    (adjustSpeed { readyState with score := 50, step_delay := 10 }).step_delay = 10 ∧
    10 ≤ (adjustCalls [50, 60, 100] { readyState with step_delay := STEP_DELAY }).step_delay :=
  ⟨by decide,
    (adjustSpeed_floor_and_monotone.1 { readyState with score := 50, step_delay := 10 }).1.trans
      (by decide),
    (adjustSpeed_floor_and_monotone.2.1 [50, 60, 100] readyState).1⟩

/-- C13: a call of `update` without a restart rising edge in which `paused` is
true after the pause latch returns with the board, the head, the tail, the
heading, the length, the score, `crashed`, the prescaler and the step interval
all unchanged, whatever the directional buttons. -/
theorem paused_call_changes_nothing (fuel : Nat) (btn : Buttons) (s : State)
    (hr : btn.restart = false ∨ s.restart_held = true)
    (hp : (pauseLatch btn s).paused = true) :
    ∃ s', update fuel btn s = .ok s' ∧ s'.paused = true ∧
      s'.board = s.board ∧ s'.head_pos = s.head_pos ∧ s'.tail_pos = s.tail_pos ∧
      s'.head_dir = s.head_dir ∧ s'.snake_len = s.snake_len ∧ s'.score = s.score ∧
      s'.crashed = s.crashed ∧ s'.presc = s.presc ∧ s'.step_delay = s.step_delay := by
  obtain ⟨s1, hl, e1, e2, e3, e4, e5, e6, e7, -⟩ := latch_noEdge fuel btn s hr
  obtain ⟨l1, l2, l3, -, -, -⟩ := latch_frame hl
  have hp1 : s1.paused = true := by
    rw [l3, ← (pauseLatch_fields btn s).1]
    exact hp
  refine ⟨s1, ?_, hp1, e1, e2, e3, e4, e5, l1, e6, e7, l2⟩
  rw [update_of_latch hl, if_pos hp1]

/-- Witness for C13: the pause button pressed in `readyState` together with Left,
with the prescaler at the step interval. -/
theorem paused_call_changes_nothing_witness :
    ∃ s', update 1 { leftButton with pause := true } readyState = .ok s' ∧ s'.paused = true ∧
      s'.board = readyState.board ∧ s'.head_pos = readyState.head_pos ∧
      s'.head_dir = readyState.head_dir ∧ s'.presc = readyState.presc :=
  (paused_call_changes_nothing 1 { leftButton with pause := true } readyState
    (Or.inl rfl) rfl).imp
    fun _ h => ⟨h.1, h.2.1, h.2.2.1, h.2.2.2.1, h.2.2.2.2.2.1, h.2.2.2.2.2.2.2.2.2.1⟩

/-- C17: in a call of `update` that is not paused and not crashed after the
latches, the heading is set to Left if Left is asserted, else Right if Right is,
else Up if Up is, else Down if Down is, else it is kept, whatever the heading
was; the step of the same call, when the prescaler fires, runs with that
heading, and the call returns with that heading unless that step collided and
`gameOver` re-initialised the game. -/
theorem heading_set_by_button_priority (fuel : Nat) (btn : Buttons) (s s1 : State)
    (hl : latchButtons fuel btn s = .ok s1) (hp : s1.paused = false)
    (hc : s1.crashed = false) :
    (stepInput btn s1).head_dir =
      (if btn.left then dLEFT else if btn.right then dRIGHT else if btn.up then dUP
        else if btn.down then dDOWN else s1.head_dir) ∧
    (s1.presc = s1.step_delay → update fuel btn s = snakeStep fuel (stepInput btn s1)) ∧
    (s1.presc ≠ s1.step_delay → update fuel btn s = .ok (stepInput btn s1)) ∧
    (∀ s', update fuel btn s = .ok s' →
      s'.head_dir = (stepInput btn s1).head_dir ∨
      gameOver fuel (crashState (stepInput btn s1)) = .ok s') ∧
    ((btn.restart = false ∨ s.restart_held = true) → s1.head_dir = s.head_dir) := by
  have hu : update fuel btn s = playTick fuel btn s1 := by
    rw [update_of_latch hl, if_neg (by rw [hp]; exact Bool.false_ne_true)]
  refine ⟨rfl, fun hf => by rw [hu, playTick_fires hc hf],
    fun hf => by rw [hu, playTick_waits hc hf], ?_, ?_⟩
  · intro s' h
    rw [hu] at h
    by_cases hf : s1.presc = s1.step_delay
    · rw [playTick_fires hc hf] at h
      rcases snakeStep_cases h with hg | ⟨b, t, hs⟩
      · exact Or.inr hg
      · exact Or.inl (by rw [hs])
    · rw [playTick_waits hc hf] at h
      simp only [Except.ok.injEq] at h
      exact Or.inl (by rw [← h])
  · intro hr
    obtain ⟨s2, hl2, -, -, -, e4, -⟩ := latch_noEdge fuel btn s hr
    rw [hl] at hl2
    simp only [Except.ok.injEq] at hl2
    rw [hl2]
    exact e4

/-- Witness for C17: Right, Up and Down asserted together while heading Right:
the heading is Right, by priority. -/
theorem heading_set_by_button_priority_witness :
    (stepInput { noButtons with right := true, up := true, down := true } readyState).head_dir
      = dRIGHT ∧
    (stepInput upButton readyState).head_dir = dUP ∧
    (stepInput leftButton readyState).head_dir = dLEFT :=
  ⟨(heading_set_by_button_priority 1 { noButtons with right := true, up := true, down := true }
      readyState readyState rfl rfl rfl).1.trans rfl,
    (heading_set_by_button_priority 1 upButton readyState readyState rfl rfl rfl).1.trans rfl,
    (heading_set_by_button_priority 1 leftButton readyState readyState rfl rfl rfl).1.trans rfl⟩

/-- C18: in one returning call of `update`, `paused` is toggled exactly when the
pause button is asserted and `pause_held` was false, and `pause_held` and
`restart_held` afterwards equal the button levels; over a run of calls with the
pause button asserted that starts with the latch clear, `paused` is toggled by
the first call and by no later one. The restart latch calls `init_gameboard`
exactly when the restart button is asserted and `restart_held` was false, and
after any call of a run with the restart button asserted `restart_held` is
true, so that only the first call of the run can be an edge. Both latches are
clear after startup, and each is clear after a call with its button released,
so every press starts with its latch clear. -/
theorem latches_fire_once_per_press (fuel : Nat) :
    (∀ (btn : Buttons) (s s' : State), update fuel btn s = .ok s' →
      s'.paused = xor s.paused (btn.pause && !s.pause_held) ∧
      s'.pause_held = btn.pause ∧ s'.restart_held = btn.restart) ∧
    (∀ (b : Buttons) (rest : List Buttons) (s s' : State),
      (∀ x ∈ b :: rest, x.pause = true) → s.pause_held = false →
      run fuel (b :: rest) s = .ok s' →
      s'.paused = xor s.paused true ∧ s'.pause_held = true) ∧
    (∀ (btn : Buttons) (s : State),
      latchButtons fuel btn s =
        if btn.restart = true ∧ s.restart_held = false then
          match init_gameboard fuel s with
          | .error e => .error e
          | .ok t => .ok (pauseLatch btn { t with presc := 0, restart_held := true })
        else .ok (pauseLatch btn { s with restart_held := btn.restart })) ∧
    (∀ (b : Buttons) (rest : List Buttons) (s s' : State),
      (∀ x ∈ b :: rest, x.restart = true) → run fuel (b :: rest) s = .ok s' →
      s'.restart_held = true) ∧
    (∀ (rnd : Nat → Nat) (hs : Nat) (s : State), boot fuel rnd hs = .ok s →
      s.pause_held = false ∧ s.restart_held = false ∧ s.paused = false) := by
  refine ⟨fun btn s s' h => ?_, fun b rest s s' hall hh h => ?_,
    fun btn s => latchButtons_eq fuel btn s, fun b rest s s' hall h => ?_,
    fun rnd hs s h => ?_⟩
  · obtain ⟨-, -, f3, f4, f5, -⟩ := update_frame h
    exact ⟨f3, f4, f5⟩
  · have := run_pause_held fuel b rest s s' hall h
    rw [hh] at this
    exact this
  · exact run_restart_held fuel (b :: rest) s s' (by simp) hall h
  · obtain ⟨b, r, -, hs0⟩ := boot_ok h
    subst hs0
    exact ⟨rfl, rfl, rfl⟩

/-- Witness for C18: three calls with the pause button held, from `readyState`:
the game is paused afterwards and the latch is set. -/
theorem latches_fire_once_per_press_witness :
    ∃ s', run 1 (List.replicate 3 { noButtons with pause := true }) readyState = .ok s' ∧
      s'.paused = xor readyState.paused true ∧ s'.pause_held = true :=
  (exists_ok (by decide!)).imp fun s' h =>
    ⟨h, (latches_fire_once_per_press 1).2.1 { noButtons with pause := true }
      (List.replicate 2 { noButtons with pause := true }) readyState s' (by decide) rfl h⟩

/-- Counterexample to C16: on the board of `readyState`, which has 75 empty
cells, with every draw landing on the tail cell, `place_food` has not returned
after 80 rounds. -/
theorem place_food_80_rounds_counterexample :
    countCells block_t.isEmpty readyState.board = 75 ∧
    (place_food 80 { readyState with rnd := fun _ => 0 }).toOption.isSome = false := by
  decide!

/-- C16 (amended): the retry loop of `place_food` is bounded by the draws, not by
the board size: it returns within `fuel` rounds exactly when one of the first
`fuel` rounds draws an empty cell; while no round has drawn an empty cell it
keeps retrying; and for every `n` there are a board with an empty cell and
draws for which it needs more than `n` rounds and returns at round `n + 1`. -/
theorem place_food_returns_iff_a_draw_hits_empty :
    (∀ (fuel : Nat) (s : State),
      (∃ s', place_food fuel s = .ok s') ↔
        ∃ k, k < fuel ∧ s.board (roundCell s k).1 (roundCell s k).2 = bEMPTY) ∧
    (∀ (fuel : Nat) (s : State),
      (∀ k, k < fuel → s.board (roundCell s k).1 (roundCell s k).2 ≠ bEMPTY) →
      place_food fuel s = .error Fault.outOfFuel) ∧
    (∀ n : Nat,
      0 < countCells block_t.isEmpty startBoard ∧
      place_food n { readyState with board := startBoard, rnd := rndLate n }
        = .error Fault.outOfFuel ∧
      ∃ s', place_food (n + 1) { readyState with board := startBoard, rnd := rndLate n }
        = .ok s') := by
  refine ⟨place_food_ok_iff, place_food_outOfFuel, fun n => ⟨by decide, ?_, ?_⟩⟩
  · apply place_food_outOfFuel
    intro k hk
    have h1 : rndLate n (2 * k + 1) = 0 := by
      unfold rndLate
      rw [if_pos (by omega)]
    have h2 : rndLate n (2 * k) = 0 := by
      unfold rndLate
      rw [if_pos (by omega)]
    have hc : roundCell { readyState with board := startBoard, rnd := rndLate n } k = (0, 0) := by
      simp only [roundCell, h1, h2]
      rfl
    rw [hc]
    show startBoard 0 0 ≠ bEMPTY
    decide
  · rw [place_food_ok_iff]
    refine ⟨n, by omega, ?_⟩
    have h1 : rndLate n (2 * n + 1) = 9 := by
      unfold rndLate
      rw [if_neg (by omega)]
    have h2 : rndLate n (2 * n) = 9 := by
      unfold rndLate
      rw [if_neg (by omega)]
    have hc : roundCell { readyState with board := startBoard, rnd := rndLate n } n = (1, 9) := by
      simp only [roundCell, h1, h2]
      rfl
    rw [hc]
    show startBoard 1 9 = bEMPTY
    decide

/-- Witness for C16 (amended): with the draws of `rndLate 100` on the start board
the loop is still running after 100 rounds and returns at round 101. -/
theorem place_food_returns_iff_a_draw_hits_empty_witness :
    place_food 100 { readyState with board := startBoard, rnd := rndLate 100 }
      = .error Fault.outOfFuel ∧
    ∃ s', place_food 101 { readyState with board := startBoard, rnd := rndLate 100 } = .ok s' :=
  (place_food_returns_iff_a_draw_hits_empty.2.2 100).2

/-- Counterexample to C11: two resets with the same draws, from `readyState` and
from the same state with score 30, end with scores 0 and 30: the result depends
on the state before the reset. -/
theorem reset_keeps_prior_score_counterexample :
    ((init_gameboard 1 readyState).toOption.map fun s => s.score) = some 0 ∧
    ((init_gameboard 1 { readyState with score := 30 }).toOption.map fun s => s.score)
      = some 30 := by
  decide!

/-- C11 (amended): a second `init_gameboard` given the same draws as the first
returns the very state the first returned, so board, snake and score are the
same after two runs as after one; the board, the head, the tail, the length,
the heading and `crashed` do not depend on the state before the reset, only on
the draws, while the score is the one before the reset. -/
theorem init_gameboard_idempotent (fuel : Nat) (s t : State)
    (h : init_gameboard fuel s = .ok t) :
    init_gameboard fuel { t with rnd := s.rnd } = .ok t ∧ t.score = s.score ∧
    ∀ s2 : State, s2.rnd = s.rnd →
      ∃ t2, init_gameboard fuel s2 = .ok t2 ∧ t2.board = t.board ∧
        t2.head_pos = t.head_pos ∧ t2.tail_pos = t.tail_pos ∧ t2.snake_len = t.snake_len ∧
        t2.head_dir = t.head_dir ∧ t2.crashed = t.crashed ∧ t2.score = s2.score := by
  refine ⟨?_, (init_gameboard_frame h).1, fun s2 hr => ?_⟩
  · rw [init_gameboard_congr fuel s { t with rnd := s.rnd } t rfl h]
  · exact ⟨_, init_gameboard_congr fuel s s2 t hr h, rfl, rfl, rfl, rfl, rfl, rfl, rfl⟩

/-- Witness for C11 (amended): a reset of `readyState`, run again on its own
result with the same draws. -/
theorem init_gameboard_idempotent_witness :
    ∃ t, init_gameboard 1 readyState = .ok t ∧
      init_gameboard 1 { t with rnd := readyState.rnd } = .ok t :=
  (exists_ok (by decide!)).imp fun t h => ⟨h, (init_gameboard_idempotent 1 readyState t h).1⟩

/-- C14: in every reachable state, following the body directions stored on the
board from `tail_pos` reaches `head_pos` after exactly `snake_len - 1` links;
every coordinate met before that is a cell of the board that holds a body
value and is not `head_pos`; and every cell that holds a body value or `bHEAD`
is met on the way, so no cell outside the chain holds either. -/
theorem reachable_snake_chain (s : State) (hr : Reachable s) :
    follow (s.snake_len - 1) s.board s.tail_pos = some s.head_pos ∧
    (∀ k, k < s.snake_len - 1 →
      ∃ c, follow k s.board s.tail_pos = some (coordOf c) ∧ (s.board c.1 c.2).isBody = true ∧
        coordOf c ≠ s.head_pos) ∧
    (∀ i j, ((s.board i j).isBody = true ∨ s.board i j = bHEAD) →
      ∃ k, k ≤ s.snake_len - 1 ∧ follow k s.board s.tail_pos = some (coordOf (i, j))) := by
  obtain ⟨-, hl, -, -, hch⟩ := reachable_inv hr
  obtain ⟨h1, h2, h3⟩ := chain_follow hch
  rw [hl]
  exact ⟨h1, h2, fun i j h => h3 (i, j) h⟩

/-- Witness for C14: the state after startup with all draws 9. -/
theorem reachable_snake_chain_witness :
    ∃ s, boot 1 rndNine 0 = .ok s ∧
      follow (s.snake_len - 1) s.board s.tail_pos = some s.head_pos :=
  (exists_ok (by decide!)).imp fun s h =>
    ⟨h, (reachable_snake_chain s (Reachable.start 1 rndNine 0 s h)).1⟩

/-- C15: in every reachable state the head and the tail are cells of the board,
no call of `update` makes an out-of-bounds board access, and after every
returning call the head and the tail are again cells of the board; a step
whose new head coordinate is at a wall goes to `gameOver` without reading the
board, and a step that reads the target cell does so at a coordinate that is
not at a wall. -/
theorem reachable_accesses_in_range (s : State) (hr : Reachable s) :
    (∃ c, s.head_pos = coordOf c) ∧ (∃ c, s.tail_pos = coordOf c) ∧
    (∀ (fuel : Nat) (btn : Buttons), update fuel btn s ≠ .error Fault.outOfBounds) ∧
    (∀ (fuel : Nat) (btn : Buttons) (s' : State), update fuel btn s = .ok s' →
      (∃ c, s'.head_pos = coordOf c) ∧ (∃ c, s'.tail_pos = coordOf c)) ∧
    (∀ (fuel : Nat) (t : State), HitsWall (advance t.head_dir t.head_pos) →
      snakeStep fuel t = gameOver fuel (crashState t)) ∧
    (∀ (b : Board) (p : coord_t) (c : block_t), b.read p.y p.x = .ok c → ¬ HitsWall p) := by
  have inBoard : ∀ t : State, Inv t →
      (∃ c, t.head_pos = coordOf c) ∧ (∃ c, t.tail_pos = coordOf c) := by
    intro t ht
    obtain ⟨c0, c1, c2, c3, h0, h3, -⟩ := ht.2.2.2.2
    exact ⟨⟨c3, h3⟩, ⟨c0, h0⟩⟩
  have hi := reachable_inv hr
  exact ⟨(inBoard s hi).1, (inBoard s hi).2, fun fuel btn => (inv_update hi).1,
    fun fuel btn s' h => inBoard s' ((inv_update hi).2 s' h),
    fun fuel t hw => snakeStep_wall hw, fun b p c h => read_not_wall h⟩

/-- Witness for C15: the state after startup with all draws 9, and a call with
Up pressed. -/
theorem reachable_accesses_in_range_witness :
    ∃ s, boot 1 rndNine 0 = .ok s ∧ update 1 upButton s ≠ .error Fault.outOfBounds :=
  (exists_ok (by decide!)).imp fun s h =>
    ⟨h, (reachable_accesses_in_range s (Reachable.start 1 rndNine 0 s h)).2.2.1 1 upButton⟩

/-- C19: in every reachable state the length is 4, the score 0 and the step
interval 24. No call of `update`, from any state at all, changes the score or
the step interval, and the length after it is the one before or 4: the branch
that grows the snake, adds to the score and speeds the game up is never run. -/
theorem reachable_never_grows (s : State) (hr : Reachable s) :
    s.snake_len = 4 ∧ s.score = 0 ∧ s.step_delay = STEP_DELAY ∧
    (∀ (fuel : Nat) (btn : Buttons) (t t' : State), update fuel btn t = .ok t' →
      t'.score = t.score ∧ t'.step_delay = t.step_delay ∧
      (t'.snake_len = t.snake_len ∨ t'.snake_len = 4)) := by
  obtain ⟨-, hl, h0, hd, -⟩ := reachable_inv hr
  exact ⟨hl, h0, hd, fun fuel btn t t' h =>
    ⟨(update_frame h).1, (update_frame h).2.1, update_len h⟩⟩

/-- Witness for C19: the state reached from startup with the food right ahead
of the head after 25 idle calls of `update`. -/
theorem reachable_never_grows_witness :
    ∃ s, (boot 1 rndFoodAhead 0 >>= run 1 (List.replicate 25 noButtons)) = .ok s ∧
      s.snake_len = 4 ∧ s.score = 0 ∧ s.step_delay = STEP_DELAY := by
  obtain ⟨s, h⟩ := exists_ok
    (r := boot 1 rndFoodAhead 0 >>= run 1 (List.replicate 25 noButtons)) (by decide!)
  obtain ⟨s0, hb, hrun⟩ := bind_ok h
  have t := reachable_never_grows s
    (reachable_run (Reachable.start 1 rndFoodAhead 0 s0 hb) hrun)
  exact ⟨s, h, t.1, t.2.1, t.2.2.1⟩

end Snake
